import Mathlib

/-!
Verification development for the DataSync real-time table synchronization
subsystem and its storage collaborators, embedded from
server/storage.ts (route registration half).

Modeling conventions:
- A JavaScript number that flows through the WebSocket message handler is
  only ever compared for equality or tested with typeof, so it is embedded
  as JsNumber, distinguishing integer-valued numbers from numbers with a
  nonzero fractional part.
- A JS Set is embedded as a duplicate-free insertion-ordered list; Set.add
  appends only when the element is absent, Set.delete filters it out.
- The JS Map from table id to subscriber set is embedded as an association
  list with unique keys; Map.set on an absent key appends, on a present key
  replaces the entry.
- WebSocket client objects are identified by a numeric connection handle
  (object identity in JS); the subscriber sets store these handles.
- Sends are modeled as a list of (recipient handle, message) pairs returned
  by each operation; the runtime performs them fire-and-forget.
-/

/-- A JavaScript number as observed by the handler: the code only compares
numbers for equality and checks typeof, so an exact constructor encoding is
adequate. `int n` is a number with integer value n; `frac n f` is a number
with integer part n and a nonzero fractional part encoded by f
(two values are equal iff their encodings are equal). -/
inductive JsNumber where
  | int (n : Int)
  | frac (n : Int) (f : Nat)
deriving DecidableEq, Repr

/-- A JSON value in the positions the handler inspects: a string, a number,
or anything else (object, array, boolean, null, absent field). -/
inductive JVal where
  | jstr (s : String)
  | jnum (q : JsNumber)
  | jother
deriving DecidableEq, Repr

/-- The successfully parsed client message: the handler only reads the
fields data.type and data.tableId. -/
structure ClientMsg where
  type : JVal
  tableId : JVal
deriving DecidableEq, Repr

/-- typeof data.tableId === 'number' gives some q, everything else none. -/
def asNum : JVal → Option JsNumber
  | JVal.jnum q => some q
  | _ => none

/-- One ExtendedWebSocket client: connection handle (object identity),
isAlive flag, readyState, and the subscribedTables set. -/
structure Conn where
  id : Nat
  isAlive : Bool
  readyState : Nat
  subscribedTables : List JsNumber
deriving DecidableEq, Repr

/-- WebSocket.OPEN -/
def wsOPEN : Nat := 1

/-- JS Set.add: append only when absent, preserving insertion order. -/
def setAdd {α : Type} [DecidableEq α] (x : α) (s : List α) : List α :=
  if x ∈ s then s else s ++ [x]

/-- JS Set.delete: remove the element. -/
def setDelete {α : Type} [DecidableEq α] (x : α) (s : List α) : List α :=
  s.filter (fun y => decide (y ≠ x))

/-- The tableSubscriptions map: table id to the set of subscribed
connection handles. Keys are unique by construction (JS Map). -/
abbrev SubsMap := List (JsNumber × List Nat)

/-- JS Map.get. -/
def mapGet : SubsMap → JsNumber → Option (List Nat)
  | [], _ => none
  | p :: rest, t => if p.1 = t then some p.2 else mapGet rest t

/-- JS Map.set on a key that is present: replace the entry. -/
def mapSet (m : SubsMap) (t : JsNumber) (v : List Nat) : SubsMap :=
  m.map (fun p => if p.1 = t then (t, v) else p)

/-- JS Map.delete: remove the entry for the key. -/
def mapDelete (m : SubsMap) (t : JsNumber) : SubsMap :=
  m.filter (fun p => decide (p.1 ≠ t))

/-- The subscribe handler effect on the map:
if (!tableSubscriptions.has(tableId)) tableSubscriptions.set(tableId, new Set());
tableSubscriptions.get(tableId)?.add(extWs); -/
def addSub (m : SubsMap) (t : JsNumber) (cid : Nat) : SubsMap :=
  match mapGet m t with
  | none => m ++ [(t, [cid])]
  | some s => mapSet m t (setAdd cid s)

/-- The unsubscribe handler effect on the map:
tableSubscriptions.get(tableId)?.delete(extWs);
if (tableSubscriptions.get(tableId)?.size === 0) tableSubscriptions.delete(tableId); -/
def pruneAfterDelete (m : SubsMap) (t : JsNumber) (cid : Nat) : SubsMap :=
  match mapGet m t with
  | none => m
  | some s =>
    let s2 := setDelete cid s
    if s2 = [] then mapDelete m t else mapSet m t s2

/-- The close handler cleanup loop body applied over a list of table ids:
Array.from(extWs.subscribedTables).forEach(tableId => prune). -/
def removeAll (m : SubsMap) (cid : Nat) (tl : List JsNumber) : SubsMap :=
  tl.foldl (fun acc t => pruneAfterDelete acc t cid) m

/-- The whole real-time state: the connected clients (wss.clients with their
per-socket fields) and the tableSubscriptions map. -/
structure ServerState where
  conns : List Conn
  tableSubscriptions : SubsMap
deriving DecidableEq, Repr

def initialState : ServerState := { conns := [], tableSubscriptions := [] }

def idsOf (st : ServerState) : List Nat := st.conns.map (fun c => c.id)

def findConn : List Conn → Nat → Option Conn
  | [], _ => none
  | c :: rest, cid => if c.id = cid then some c else findConn rest cid

def getConn (st : ServerState) (cid : Nat) : Option Conn := findConn st.conns cid

/-- The subscriber handle set in a map, empty when the key is absent. -/
def msubs (m : SubsMap) (t : JsNumber) : List Nat := (mapGet m t).getD []

/-- The subscriber handle set for a table id, empty when the key is absent. -/
def subsOf (st : ServerState) (t : JsNumber) : List Nat :=
  msubs st.tableSubscriptions t

/-- client.readyState === WebSocket.OPEN for the socket with this handle. -/
def connOpen (st : ServerState) (cid : Nat) : Bool :=
  match getConn st cid with
  | some c => decide (c.readyState = wsOPEN)
  | none => false

/-- Messages the server sends to individual clients. -/
structure TableRec where
  id : Nat
  userId : Nat
  name : String
  googleSheetUrl : String
  lastUpdatedAt : Nat
deriving DecidableEq, Repr

structure CustomColumn where
  id : Nat
  tableId : Nat
  name : String
  columnType : String
  createdAt : Nat
deriving DecidableEq, Repr

structure SheetData where
  headers : List String
  rows : List (List String)
deriving DecidableEq, Repr

/-- The payload object passed to broadcastTableUpdate by the mutation
routes. Each field is present at some call sites and absent at others, so
all are optional; a present type field overrides the outer tableUpdate tag
when the object spread merges the payload into the envelope. -/
structure BData where
  type : Option String := none
  message : Option String := none
  sheetData : Option SheetData := none
  customColumns : Option (List CustomColumn) := none
  table : Option TableRec := none
  column : Option CustomColumn := none
  columnId : Option Nat := none
  rowIndex : Option Nat := none
  value : Option String := none
  timestamp : Option Nat := none
deriving DecidableEq, Repr

/-- The broadcast wire message: JSON.stringify({ type: 'tableUpdate',
tableId, ...data }). A type field inside data overrides the outer tag
because the spread comes last. -/
structure WireMsg where
  type : String
  tableId : JsNumber
  data : BData
deriving DecidableEq, Repr

def wireOf (tableId : JsNumber) (d : BData) : WireMsg :=
  { type := d.type.getD "tableUpdate", tableId := tableId, data := d }

/-- A message sent to one client. -/
inductive OutMsg where
  | subscribed (tableId : JsNumber) (message : String)
  | unsubscribed (tableId : JsNumber)
  | update (w : WireMsg)
deriving DecidableEq, Repr

/-- State after the subscribe branch for connection cid and table id q. -/
def subscribeState (st : ServerState) (cid : Nat) (q : JsNumber) : ServerState :=
  { conns := st.conns.map (fun c =>
      if c.id = cid then { c with subscribedTables := setAdd q c.subscribedTables } else c),
    tableSubscriptions := addSub st.tableSubscriptions q cid }

/-- State after the unsubscribe branch for connection cid and table id q. -/
def unsubscribeState (st : ServerState) (cid : Nat) (q : JsNumber) : ServerState :=
  { conns := st.conns.map (fun c =>
      if c.id = cid then { c with subscribedTables := setDelete q c.subscribedTables } else c),
    tableSubscriptions := pruneAfterDelete st.tableSubscriptions q cid }

/-- The extWs.on('message') handler body after JSON.parse succeeded.
The source tests data.type === 'subscribe' && typeof data.tableId === 'number'
and then the corresponding unsubscribe test; everything else falls through
with no effect and no send. -/
def handleMessage (st : ServerState) (cid : Nat) (msg : ClientMsg) :
    ServerState × List (Nat × OutMsg) :=
  match asNum msg.tableId with
  | some q =>
    if msg.type = JVal.jstr "subscribe" then
      (subscribeState st cid q,
       [(cid, OutMsg.subscribed q "Successfully subscribed to real-time updates")])
    else if msg.type = JVal.jstr "unsubscribe" then
      (unsubscribeState st cid q, [(cid, OutMsg.unsubscribed q)])
    else (st, [])
  | none => (st, [])

/-- The full message event including the try/catch around JSON.parse:
a message that fails to parse is logged and otherwise ignored. -/
def handleRawMessage (st : ServerState) (cid : Nat) (parsed : Option ClientMsg) :
    ServerState × List (Nat × OutMsg) :=
  match parsed with
  | none => (st, [])
  | some m => handleMessage st cid m

/-- The extWs.on('close') handler effect on the map for one closing socket. -/
def closeCleanup (m : SubsMap) (c : Conn) : SubsMap :=
  removeAll m c.id c.subscribedTables

/-- State after the close handler ran for connection cid (the socket leaves
wss.clients and its subscriptions are cleaned up with pruning). -/
def disconnectState (st : ServerState) (c : Conn) : ServerState :=
  { conns := st.conns.filter (fun c2 => decide (c2.id ≠ c.id)),
    tableSubscriptions := closeCleanup st.tableSubscriptions c }

/-- The pingInterval sweep: terminate every socket whose isAlive is false
(its close handler then cleans up its subscriptions), and mark every other
socket not alive and ping it. -/
def sweep (st : ServerState) : ServerState :=
  { conns := (st.conns.filter (fun c => c.isAlive)).map (fun c => { c with isAlive := false }),
    tableSubscriptions :=
      (st.conns.filter (fun c => c.isAlive = false)).foldl
        (fun acc c => closeCleanup acc c) st.tableSubscriptions }

/-- broadcastTableUpdate: look up the subscribers, return silently when the
entry is absent or empty, otherwise send the envelope to every subscriber
whose socket is in the OPEN ready state. -/
def broadcastTableUpdate (st : ServerState) (tableId : JsNumber) (d : BData) :
    List (Nat × OutMsg) :=
  match mapGet st.tableSubscriptions tableId with
  | none => []
  | some subscribers =>
    if subscribers.length = 0 then []
    else (subscribers.filter (fun x => connOpen st x)).map
      (fun x => (x, OutMsg.update (wireOf tableId d)))

/-- The observable operations on the real-time state. -/
inductive Op where
  | connect (cid : Nat)
  | clientMsg (cid : Nat) (parsed : Option ClientMsg)
  | pong (cid : Nat)
  | disconnect (cid : Nat)
  | deleteTable (t : JsNumber)
  | sweepTick
deriving DecidableEq, Repr

/-- One step of the event loop. A message or pong can only come from a
currently connected socket; connecting reuses no live handle. -/
def step (st : ServerState) (op : Op) : ServerState :=
  match op with
  | Op.connect cid =>
    if cid ∈ idsOf st then st
    else { st with conns := st.conns ++ [{ id := cid, isAlive := true, readyState := wsOPEN, subscribedTables := [] }] }
  | Op.clientMsg cid parsed =>
    if cid ∈ idsOf st then (handleRawMessage st cid parsed).1 else st
  | Op.pong cid =>
    { st with conns := st.conns.map (fun c => if c.id = cid then { c with isAlive := true } else c) }
  | Op.disconnect cid =>
    match getConn st cid with
    | none => st
    | some c => disconnectState st c
  | Op.deleteTable t =>
    { st with tableSubscriptions := mapDelete st.tableSubscriptions t }
  | Op.sweepTick => sweep st

def run (ops : List Op) : ServerState := ops.foldl step initialState

/-! ## fetchGoogleSheetData -/

/-- One character class of the sheet id regex [-\w]{25,}: ASCII letters,
digits, underscore, or hyphen. -/
def isSheetIdChar (c : Char) : Bool := c.isAlphanum || c = '_' || c = '-'

/-- Length of the longest run of sheet id characters, accumulating the
current run and the best run seen so far. -/
def maxRunAux : List Char → Nat → Nat → Nat
  | [], cur, best => max cur best
  | c :: cs, cur, best =>
    if isSheetIdChar c then maxRunAux cs (cur + 1) best
    else maxRunAux cs 0 (max cur best)

/-- sheetUrl.match(/[-\w]{25,}/) succeeds exactly when the url contains a
run of at least 25 sheet id characters. -/
def hasSheetIdMatch (s : String) : Bool := decide (25 ≤ maxRunAux s.data 0 0)

/-- The outcome of the Google Sheets API call, as distinguished by the
error handling in fetchGoogleSheetData. The ok payload carries the values
matrix with each cell already rendered to a string (none is a null or
undefined cell). -/
inductive SheetsApiResult where
  | ok (values : List (List (Option String)))
  | http404
  | http403
  | otherError
deriving DecidableEq, Repr

/-- The snapshot returned by the outer catch for any error that reaches it
(invalid url, missing key, rethrown API error, network error). -/
def genericFetchError : SheetData :=
  { headers := ["Error"],
    rows := [["Failed to load data. Please check the Google Sheet URL and try again."]] }

def notFoundSnapshot : SheetData :=
  { headers := ["Data not found"],
    rows := [["Please check your Google Sheet URL and permissions"]] }

def accessDeniedSnapshot : SheetData :=
  { headers := ["Access denied"],
    rows := [["Google Sheet requires public access or sharing with service account"]] }

/-- One data cell: row[i] rendered as in the source, with a missing, null
or undefined cell becoming the empty string. -/
def sheetCell (row : List (Option String)) (i : Nat) : String :=
  match row.get? i with
  | some (some s) => s
  | _ => ""

/-- The successful-response shaping in fetchGoogleSheetData: header row,
generic Column headers when the first row is empty, padded string rows, and
one empty display row when the sheet has headers but no data rows. The
Sheets API values field is a matrix, so every row is a list here and the
defensive non-array row branch of the source is not reachable. -/
def buildSheetData (values : List (List (Option String))) : SheetData :=
  if values = [] then { headers := [], rows := [] }
  else
    let headers0 := (values.headD []).map (fun h => h.getD "")
    let headers :=
      if headers0.length = 0 then
        let maxColumns := values.foldl (fun m row => max m row.length) 0
        (List.range maxColumns).map (fun i => "Column " ++ toString (i + 1))
      else headers0
    let rows := (values.drop 1).map (fun row =>
      (List.range (max headers.length row.length)).map (fun i => sheetCell row i))
    let rows := if rows = [] ∧ headers ≠ [] then [List.replicate headers.length ""] else rows
    { headers := headers, rows := rows }

/-- fetchGoogleSheetData: a total function of the url, the configured API
key (empty string when the environment variable is unset) and the API
outcome. The two early throws are caught by the outer catch and become the
generic error snapshot; 404 and 403 become their specific snapshots; any
other API error is rethrown into the outer catch. -/
def fetchGoogleSheetData (sheetUrl : String) (apiKey : String)
    (api : SheetsApiResult) : SheetData :=
  if hasSheetIdMatch sheetUrl = false then genericFetchError
  else if apiKey = "" then genericFetchError
  else
    match api with
    | SheetsApiResult.ok values => buildSheetData values
    | SheetsApiResult.http404 => notFoundSnapshot
    | SheetsApiResult.http403 => accessDeniedSnapshot
    | SheetsApiResult.otherError => genericFetchError

/-! ## Table routes that carry the resync broadcasts -/

/-- storage.getUserTable: the table with this id belonging to this user. -/
def getUserTable (store : List TableRec) (id userId : Nat) : Option TableRec :=
  (store.filter (fun t => decide (t.id = id) && decide (t.userId = userId))).head?

/-- storage.updateTable specialised to the patch both resync routes pass,
{ lastUpdatedAt: new Date() }: set the timestamp on the matching row and
return the new store with the updated row (returning clause). -/
def updateTable (store : List TableRec) (id : Nat) (now : Nat) :
    List TableRec × Option TableRec :=
  let store2 := store.map (fun t => if t.id = id then { t with lastUpdatedAt := now } else t)
  (store2, (store2.filter (fun t => decide (t.id = id))).head?)

/-- POST /api/tables/:id/sync after auth: look the table up for the user,
return 404 with no broadcast when absent; otherwise fetch, persist the
timestamp, then broadcast { message, timestamp, sheetData, customColumns,
table } with no type field in the payload. Returns the persisted store and
the (tableId, payload) broadcast when one happens. -/
def syncRouteHandler (store : List TableRec) (tableId userId : Nat)
    (fetched : SheetData) (ccs : List CustomColumn) (now : Nat) :
    List TableRec × Option (JsNumber × BData) :=
  match getUserTable store tableId userId with
  | none => (store, none)
  | some _ =>
    let r := updateTable store tableId now
    (r.1, some (JsNumber.int (Int.ofNat tableId),
      { message := some "Data synced", timestamp := some now,
        sheetData := some fetched, customColumns := some ccs, table := r.2 }))

/-- GET /api/tables/:id/data after auth: look the table up for the user,
404 with no broadcast when absent; otherwise fetch, persist the timestamp,
and broadcast { type: 'dataRefreshed', message, sheetData, customColumns,
table } only when the refresh query flag is true. -/
def dataRouteHandler (store : List TableRec) (tableId userId : Nat)
    (fetched : SheetData) (ccs : List CustomColumn) (now : Nat) (refresh : Bool) :
    List TableRec × Option (JsNumber × BData) :=
  match getUserTable store tableId userId with
  | none => (store, none)
  | some _ =>
    let r := updateTable store tableId now
    (r.1,
      if refresh then
        some (JsNumber.int (Int.ofNat tableId),
          { type := some "dataRefreshed", message := some "Data refreshed",
            sheetData := some fetched, customColumns := some ccs, table := r.2 })
      else none)

/-! ## Column value storage (PostgresStorage) -/

structure ColumnValue where
  id : Nat
  columnId : Nat
  rowIndex : Nat
  value : String
  createdAt : Nat
  updatedAt : Nat
deriving DecidableEq, Repr

structure InsertColumnValue where
  columnId : Nat
  rowIndex : Nat
  value : String
deriving DecidableEq, Repr

/-- PostgresStorage.getColumnValue: select where columnId and rowIndex
match, limit 1. -/
def getColumnValue (store : List ColumnValue) (columnId rowIndex : Nat) :
    Option ColumnValue :=
  (store.filter (fun r => decide (r.columnId = columnId) && decide (r.rowIndex = rowIndex))).head?

/-- PostgresStorage.saveColumnValue: when a record for the pair exists,
update that record in place by id (value and updatedAt) and return it;
otherwise insert a fresh record and return it. freshId is the id the
insert assigns, now the current time. -/
def saveColumnValue (store : List ColumnValue) (icv : InsertColumnValue)
    (freshId now : Nat) : List ColumnValue × ColumnValue :=
  match getColumnValue store icv.columnId icv.rowIndex with
  | some existing =>
    (store.map (fun r =>
      if r.id = existing.id then { r with value := icv.value, updatedAt := now } else r),
     { existing with value := icv.value, updatedAt := now })
  | none =>
    let newRec : ColumnValue :=
      { id := freshId, columnId := icv.columnId, rowIndex := icv.rowIndex,
        value := icv.value, createdAt := now, updatedAt := now }
    (store ++ [newRec], newRec)

/-- At most one stored record per (columnId, rowIndex) pair. -/
def AtMostOnePerCell (store : List ColumnValue) : Prop :=
  ∀ c r, (store.filter (fun v => decide (v.columnId = c) && decide (v.rowIndex = r))).length ≤ 1

/-! ## Invariants of the subscription state -/

/-- Forward half of the subscription symmetry: every table in a socket
subscribedTables set lists that socket in the router map. -/
def ConnToRouter (st : ServerState) : Prop :=
  ∀ c ∈ st.conns, ∀ t ∈ c.subscribedTables, c.id ∈ subsOf st t

/-- Backward half: every handle in a router entry belongs to a connected
socket that has the table in its local set. -/
def RouterToConn (st : ServerState) : Prop :=
  ∀ t : JsNumber, ∀ x ∈ subsOf st t,
    ∃ c ∈ st.conns, c.id = x ∧ t ∈ c.subscribedTables

/-- Connection handles identify sockets uniquely. -/
def NodupIds (st : ServerState) : Prop := (idsOf st).Nodup

/-- The claim form of the symmetry invariant. -/
def SubSymmetric (st : ServerState) : Prop :=
  ∀ c ∈ st.conns, ∀ t : JsNumber, t ∈ c.subscribedTables ↔ c.id ∈ subsOf st t

/-- No router entry is an empty set (pruning invariant). -/
def Pruned (st : ServerState) : Prop :=
  ∀ p ∈ st.tableSubscriptions, p.2 ≠ []

/-- The key t is entirely absent from the map. -/
def keyAbsent (m : SubsMap) (t : JsNumber) : Prop := ∀ p ∈ m, p.1 ≠ t

/-- No entry of the map is an empty subscriber set. -/
def MPruned (m : SubsMap) : Prop := ∀ p ∈ m, p.2 ≠ []

/-- The three structural facts that together give the symmetry invariant. -/
def SymOK (st : ServerState) : Prop :=
  ConnToRouter st ∧ RouterToConn st ∧ NodupIds st

/-- Is this operation the table-deletion route cleanup? -/
def isDeleteOp : Op → Bool
  | Op.deleteTable _ => true
  | _ => false

/-! ## Concrete fixtures used by witnesses and counterexamples -/

/-- connect, subscribe to table 1, then delete table 1. -/
def c1DeleteOps : List Op :=
  [Op.connect 0,
   Op.clientMsg 0 (some { type := JVal.jstr "subscribe", tableId := JVal.jnum (JsNumber.int 1) }),
   Op.deleteTable (JsNumber.int 1)]

/-- connect two clients, subscribe both, unsubscribe one, disconnect the other. -/
def c1GoodOps : List Op :=
  [Op.connect 0, Op.connect 1,
   Op.clientMsg 0 (some { type := JVal.jstr "subscribe", tableId := JVal.jnum (JsNumber.int 5) }),
   Op.clientMsg 1 (some { type := JVal.jstr "subscribe", tableId := JVal.jnum (JsNumber.int 5) }),
   Op.clientMsg 0 (some { type := JVal.jstr "unsubscribe", tableId := JVal.jnum (JsNumber.int 5) }),
   Op.pong 1, Op.sweepTick, Op.disconnect 1]

/-- One open connected client with no subscriptions. -/
def oneConnState : ServerState :=
  { conns := [{ id := 0, isAlive := true, readyState := 1, subscribedTables := [] }],
    tableSubscriptions := [] }

/-- A subscribe message whose tableId is the number 2.5: a number, but not
an integer. -/
def fracSubscribeMsg : ClientMsg :=
  { type := JVal.jstr "subscribe", tableId := JVal.jnum (JsNumber.frac 2 5) }

/-- Clients 1 and 2 subscribed to table 7 and open, client 3 subscribed
only to table 8. -/
def fanoutState : ServerState :=
  { conns :=
      [{ id := 1, isAlive := true, readyState := 1, subscribedTables := [JsNumber.int 7] },
       { id := 2, isAlive := true, readyState := 1, subscribedTables := [JsNumber.int 7] },
       { id := 3, isAlive := true, readyState := 1, subscribedTables := [JsNumber.int 8] }],
    tableSubscriptions := [(JsNumber.int 7, [1, 2]), (JsNumber.int 8, [3])] }

/-- Client 1 is the sole subscriber of table 7; client 2 watches table 8. -/
def lastSubState : ServerState :=
  { conns :=
      [{ id := 1, isAlive := true, readyState := 1, subscribedTables := [JsNumber.int 7] },
       { id := 2, isAlive := true, readyState := 1, subscribedTables := [JsNumber.int 8] }],
    tableSubscriptions := [(JsNumber.int 7, [1]), (JsNumber.int 8, [2])] }

/-- Client 1 missed its probe window (isAlive false); client 2 answered. -/
def sweepState : ServerState :=
  { conns :=
      [{ id := 1, isAlive := false, readyState := 1,
         subscribedTables := [JsNumber.int 7, JsNumber.int 8] },
       { id := 2, isAlive := true, readyState := 1, subscribedTables := [JsNumber.int 8] }],
    tableSubscriptions := [(JsNumber.int 7, [1]), (JsNumber.int 8, [1, 2])] }

/-- Entry-level form of the router-to-connection invariant, quantifying
over the finite entry list so it is decidable on concrete states. -/
def RouterToConnE (st : ServerState) : Prop :=
  ∀ p ∈ st.tableSubscriptions, ∀ x ∈ p.2,
    ∃ c ∈ st.conns, c.id = x ∧ p.1 ∈ c.subscribedTables

/-- The sole subscriber of table 7 in lastSubState. -/
def lastSubConn : Conn :=
  { id := 1, isAlive := true, readyState := 1, subscribedTables := [JsNumber.int 7] }

/-- The connection of sweepState that missed its probe window. -/
def sweepDeadConn : Conn :=
  { id := 1, isAlive := false, readyState := 1,
    subscribedTables := [JsNumber.int 7, JsNumber.int 8] }

/-- The single client of oneConnState. -/
def conn0 : Conn := { id := 0, isAlive := true, readyState := 1, subscribedTables := [] }

/-- One stored tables row for the route fixtures. -/
def oneTableStore : List TableRec :=
  [{ id := 1, userId := 1, name := "t", googleSheetUrl := "u", lastUpdatedAt := 0 }]

/-- A small snapshot for the route fixtures. -/
def smallSheet : SheetData := { headers := ["h"], rows := [["v"]] }

/-- A url containing a 28 character run of sheet id characters, so the
sheet id regex matches. -/
def validSheetUrl : String :=
  "https://docs.google.com/spreadsheets/d/abcdefghijklmnopqrstuvwxy123/edit"

/-- One stored column value for the upsert fixture. -/
def oneValueStore : List ColumnValue :=
  [{ id := 10, columnId := 7, rowIndex := 3, value := "old", createdAt := 0, updatedAt := 0 }]

/-! ## Lemmas about the JS set embedding -/

theorem mem_setAdd {α : Type} [DecidableEq α] {x y : α} {s : List α} :
    x ∈ setAdd y s ↔ x = y ∨ x ∈ s := by
  unfold setAdd
  split
  · rename_i h
    constructor
    · exact fun hx => Or.inr hx
    · rintro (rfl | hx)
      · exact h
      · exact hx
  · simp [List.mem_append]
    tauto

theorem self_mem_setAdd {α : Type} [DecidableEq α] (x : α) (s : List α) :
    x ∈ setAdd x s :=
  mem_setAdd.mpr (Or.inl rfl)

theorem setAdd_idem {α : Type} [DecidableEq α] (x : α) (s : List α) :
    setAdd x (setAdd x s) = setAdd x s := by
  have h := self_mem_setAdd x s
  unfold setAdd at h ⊢
  rw [if_pos h]

theorem setAdd_ne_nil {α : Type} [DecidableEq α] {x : α} {s : List α} :
    setAdd x s ≠ [] := by
  intro h
  have := self_mem_setAdd x s
  rw [h] at this
  exact List.not_mem_nil x this

theorem mem_setDelete {α : Type} [DecidableEq α] {x y : α} {s : List α} :
    x ∈ setDelete y s ↔ x ∈ s ∧ x ≠ y := by
  unfold setDelete
  simp [List.mem_filter]

theorem not_mem_setDelete_self {α : Type} [DecidableEq α] {y : α} {s : List α} :
    y ∉ setDelete y s := by
  intro h
  exact (mem_setDelete.mp h).2 rfl

theorem nodup_setAdd {α : Type} [DecidableEq α] {x : α} {s : List α}
    (h : s.Nodup) : (setAdd x s).Nodup := by
  unfold setAdd
  split
  · exact h
  · rename_i hx
    simp [List.nodup_append, h, hx]

/-! ## Lemmas about the JS map embedding -/

theorem mapGet_eq_none_iff {m : SubsMap} {t : JsNumber} :
    mapGet m t = none ↔ keyAbsent m t := by
  induction m with
  | nil => simp [mapGet, keyAbsent]
  | cons p rest ih =>
    by_cases h : p.1 = t <;>
      simp [mapGet, keyAbsent, h, List.forall_mem_cons] at ih ⊢ <;> tauto

theorem mapGet_mapSet_self {m : SubsMap} {t : JsNumber} {s v : List Nat}
    (h : mapGet m t = some s) : mapGet (mapSet m t v) t = some v := by
  induction m with
  | nil => simp [mapGet] at h
  | cons p rest ih =>
    by_cases hp : p.1 = t
    · simp [mapGet, mapSet, hp]
    · simp [mapGet, hp] at h
      simp [mapGet, mapSet, hp]
      exact ih h

theorem mapGet_mapSet_ne {m : SubsMap} {t t2 : JsNumber} {v : List Nat}
    (h : t2 ≠ t) : mapGet (mapSet m t v) t2 = mapGet m t2 := by
  induction m with
  | nil => simp [mapGet, mapSet]
  | cons p rest ih =>
    by_cases hp : p.1 = t
    · have hpt2 : p.1 ≠ t2 := fun he => h (he.symm.trans hp)
      rw [show mapSet (p :: rest) t v = (t, v) :: mapSet rest t v by simp [mapSet, hp]]
      rw [show mapGet ((t, v) :: mapSet rest t v) t2 = mapGet (mapSet rest t v) t2 by
        simp [mapGet, Ne.symm h]]
      rw [ih]
      simp [mapGet, hpt2]
    · rw [show mapSet (p :: rest) t v = p :: mapSet rest t v by simp [mapSet, hp]]
      by_cases hq : p.1 = t2
      · simp [mapGet, hq]
      · simp [mapGet, hq, ih]

theorem mapGet_mapDelete_self {m : SubsMap} {t : JsNumber} :
    mapGet (mapDelete m t) t = none := by
  induction m with
  | nil => simp [mapGet, mapDelete]
  | cons p rest ih =>
    by_cases hp : p.1 = t
    · simpa [mapDelete, hp] using ih
    · simpa [mapDelete, mapGet, hp] using ih

theorem mapGet_append_of_none {m l : SubsMap} {t : JsNumber}
    (h : mapGet m t = none) : mapGet (m ++ l) t = mapGet l t := by
  induction m with
  | nil => simp
  | cons p rest ih =>
    by_cases hp : p.1 = t
    · simp [mapGet, hp] at h
    · simp [mapGet, hp] at h ⊢
      exact ih h

theorem mapGet_mapDelete_ne {m : SubsMap} {t t2 : JsNumber}
    (h : t2 ≠ t) : mapGet (mapDelete m t) t2 = mapGet m t2 := by
  induction m with
  | nil => simp [mapDelete]
  | cons p rest ih =>
    by_cases hp : p.1 = t
    · rw [show mapDelete (p :: rest) t = mapDelete rest t by simp [mapDelete, hp]]
      rw [ih, show mapGet (p :: rest) t2 = mapGet rest t2 by
        simp [mapGet, show p.1 ≠ t2 from fun he => h (he ▸ hp)]]
    · rw [show mapDelete (p :: rest) t = p :: mapDelete rest t by simp [mapDelete, hp]]
      by_cases hq : p.1 = t2
      · simp [mapGet, hq]
      · simp [mapGet, hq, ih]

/-! ## Lemmas about msubs, addSub, pruneAfterDelete, removeAll -/

theorem msubs_addSub_self (m : SubsMap) (t : JsNumber) (cid : Nat) :
    msubs (addSub m t cid) t = setAdd cid (msubs m t) := by
  unfold addSub
  cases hg : mapGet m t with
  | none =>
    have : mapGet (m ++ [(t, [cid])]) t = some [cid] := by
      rw [mapGet_append_of_none hg]
      simp [mapGet]
    simp [msubs, this, hg, setAdd]
  | some s =>
    simp [msubs, mapGet_mapSet_self hg, hg]

theorem msubs_addSub_ne {t t2 : JsNumber} (m : SubsMap) (cid : Nat)
    (h : t2 ≠ t) : msubs (addSub m t cid) t2 = msubs m t2 := by
  unfold addSub
  cases hg : mapGet m t with
  | none =>
    unfold msubs
    cases hg2 : mapGet m t2 with
    | none =>
      rw [mapGet_append_of_none hg2]
      simp [mapGet, Ne.symm h]
    | some s2 =>
      have : mapGet (m ++ [(t, [cid])]) t2 = some s2 := by
        clear hg
        induction m with
        | nil => simp [mapGet] at hg2
        | cons p rest ih =>
          by_cases hp : p.1 = t2
          · simp [mapGet, hp] at hg2 ⊢
            exact hg2
          · simp [mapGet, hp] at hg2 ⊢
            exact ih hg2
      rw [this]
  | some s =>
    unfold msubs
    rw [mapGet_mapSet_ne h]

theorem msubs_pruneAfterDelete_self (m : SubsMap) (t : JsNumber) (cid : Nat) :
    msubs (pruneAfterDelete m t cid) t = setDelete cid (msubs m t) := by
  unfold pruneAfterDelete
  cases hg : mapGet m t with
  | none => simp [msubs, hg, setDelete]
  | some s =>
    by_cases hs : setDelete cid s = []
    · simp [hs, msubs, mapGet_mapDelete_self, hg]
    · simp [hs, msubs, mapGet_mapSet_self hg, hg]

theorem msubs_pruneAfterDelete_ne {t t2 : JsNumber} (m : SubsMap) (cid : Nat)
    (h : t2 ≠ t) : msubs (pruneAfterDelete m t cid) t2 = msubs m t2 := by
  unfold pruneAfterDelete
  cases hg : mapGet m t with
  | none => rfl
  | some s =>
    by_cases hs : setDelete cid s = []
    · simp [hs, msubs, mapGet_mapDelete_ne h]
    · simp [hs, msubs, mapGet_mapSet_ne h]

theorem mem_msubs_pruneAfterDelete {x cid : Nat} {m : SubsMap} {t0 t : JsNumber}
    (h : x ∈ msubs (pruneAfterDelete m t0 cid) t) : x ∈ msubs m t := by
  by_cases ht : t = t0
  · subst ht
    rw [msubs_pruneAfterDelete_self] at h
    exact (mem_setDelete.mp h).1
  · rwa [msubs_pruneAfterDelete_ne m cid ht] at h

theorem mem_msubs_pruneAfterDelete_iff {x cid : Nat} {m : SubsMap} {t0 t : JsNumber}
    (hx : x ≠ cid) : x ∈ msubs (pruneAfterDelete m t0 cid) t ↔ x ∈ msubs m t := by
  by_cases ht : t = t0
  · subst ht
    rw [msubs_pruneAfterDelete_self, mem_setDelete]
    exact ⟨fun h => h.1, fun h => ⟨h, hx⟩⟩
  · rw [msubs_pruneAfterDelete_ne m cid ht]

theorem removeAll_cons (m : SubsMap) (cid : Nat) (t0 : JsNumber) (rest : List JsNumber) :
    removeAll m cid (t0 :: rest) = removeAll (pruneAfterDelete m t0 cid) cid rest := rfl

theorem mem_msubs_removeAll {x cid : Nat} {tl : List JsNumber} {m : SubsMap} {t : JsNumber}
    (h : x ∈ msubs (removeAll m cid tl) t) : x ∈ msubs m t := by
  induction tl generalizing m with
  | nil => exact h
  | cons t0 rest ih =>
    have := ih (m := pruneAfterDelete m t0 cid) h
    exact mem_msubs_pruneAfterDelete this

theorem mem_msubs_removeAll_iff {x cid : Nat} {tl : List JsNumber} {m : SubsMap} {t : JsNumber}
    (hx : x ≠ cid) : x ∈ msubs (removeAll m cid tl) t ↔ x ∈ msubs m t := by
  induction tl generalizing m with
  | nil => exact Iff.rfl
  | cons t0 rest ih =>
    exact (ih (m := pruneAfterDelete m t0 cid)).trans (mem_msubs_pruneAfterDelete_iff hx)

theorem not_mem_msubs_removeAll_of_not_mem {cid : Nat} {tl : List JsNumber} {m : SubsMap}
    {t : JsNumber} (h : cid ∉ msubs m t) : cid ∉ msubs (removeAll m cid tl) t :=
  fun hmem => h (mem_msubs_removeAll hmem)

theorem not_mem_msubs_removeAll_of_mem {cid : Nat} {tl : List JsNumber} {m : SubsMap}
    {t : JsNumber} (h : t ∈ tl) : cid ∉ msubs (removeAll m cid tl) t := by
  induction tl generalizing m with
  | nil => exact absurd h (List.not_mem_nil t)
  | cons t0 rest ih =>
    rcases List.mem_cons.mp h with rfl | hrest
    · by_cases hr : t ∈ rest
      · rw [removeAll_cons]
        exact ih hr
      · rw [removeAll_cons]
        apply not_mem_msubs_removeAll_of_not_mem
        rw [msubs_pruneAfterDelete_self]
        exact not_mem_setDelete_self
    · rw [removeAll_cons]
      exact ih hrest

/-! ## Pruning and key absence lemmas -/

theorem mem_mapSet {m : SubsMap} {t : JsNumber} {v : List Nat} {p : JsNumber × List Nat}
    (h : p ∈ mapSet m t v) : p ∈ m ∨ p = (t, v) := by
  unfold mapSet at h
  rcases List.mem_map.mp h with ⟨q, hq, hqe⟩
  by_cases hqt : q.1 = t
  · rw [if_pos hqt] at hqe
    exact Or.inr hqe.symm
  · rw [if_neg hqt] at hqe
    exact Or.inl (hqe ▸ hq)

theorem mem_mapDelete {m : SubsMap} {t : JsNumber} {p : JsNumber × List Nat}
    (h : p ∈ mapDelete m t) : p ∈ m :=
  (List.mem_filter.mp h).1

theorem setDelete_eq_nil_of_all {s : List Nat} {cid : Nat}
    (h : ∀ x ∈ s, x = cid) : setDelete cid s = [] := by
  unfold setDelete
  exact List.filter_eq_nil_iff.mpr (by
    intro a ha
    simp [h a ha])

theorem MPruned_addSub {m : SubsMap} {t : JsNumber} {cid : Nat}
    (h : MPruned m) : MPruned (addSub m t cid) := by
  unfold addSub
  cases hg : mapGet m t with
  | none =>
    intro p hp
    rcases List.mem_append.mp hp with hm | hs
    · exact h p hm
    · rw [List.mem_singleton.mp hs]
      simp
  | some s =>
    intro p hp
    rcases mem_mapSet hp with hm | rfl
    · exact h p hm
    · exact setAdd_ne_nil

theorem MPruned_mapDelete {m : SubsMap} {t : JsNumber}
    (h : MPruned m) : MPruned (mapDelete m t) :=
  fun p hp => h p (mem_mapDelete hp)

theorem MPruned_pruneAfterDelete {m : SubsMap} {t : JsNumber} {cid : Nat}
    (h : MPruned m) : MPruned (pruneAfterDelete m t cid) := by
  unfold pruneAfterDelete
  cases hg : mapGet m t with
  | none => exact h
  | some s =>
    by_cases hs : setDelete cid s = []
    · simpa [hs] using MPruned_mapDelete h
    · simp only [hs, if_neg]
      intro p hp
      rcases mem_mapSet hp with hm | rfl
      · exact h p hm
      · simpa using hs

theorem MPruned_removeAll {cid : Nat} {tl : List JsNumber} {m : SubsMap}
    (h : MPruned m) : MPruned (removeAll m cid tl) := by
  induction tl generalizing m with
  | nil => exact h
  | cons t0 rest ih =>
    rw [removeAll_cons]
    exact ih (MPruned_pruneAfterDelete h)

theorem keyAbsent_mapDelete_self {m : SubsMap} {t : JsNumber} :
    keyAbsent (mapDelete m t) t :=
  mapGet_eq_none_iff.mp mapGet_mapDelete_self

theorem keyAbsent_pruneAfterDelete {m : SubsMap} {t t0 : JsNumber} {cid : Nat}
    (h : keyAbsent m t) : keyAbsent (pruneAfterDelete m t0 cid) t := by
  unfold pruneAfterDelete
  cases hg : mapGet m t0 with
  | none => exact h
  | some s =>
    by_cases hs : setDelete cid s = []
    · simp only [hs, if_pos]
      exact fun p hp => h p (mem_mapDelete hp)
    · simp only [hs, if_neg]
      intro p hp
      rcases mem_mapSet hp with hm | rfl
      · exact h p hm
      · have hmem : (t0, s) ∈ m := by
          clear hs hp
          induction m with
          | nil => simp [mapGet] at hg
          | cons q qrest ih =>
            by_cases hq : q.1 = t0
            · simp [mapGet, hq] at hg
              exact List.mem_cons.mpr (Or.inl (by rw [← hq, ← hg]))
            · simp [mapGet, hq] at hg
              exact List.mem_cons_of_mem q
                (ih (fun p hp => h p (List.mem_cons_of_mem q hp)) hg)
        exact fun he => h (t0, s) hmem (by simpa using he)

theorem keyAbsent_removeAll {cid : Nat} {tl : List JsNumber} {m : SubsMap} {t : JsNumber}
    (h : keyAbsent m t) : keyAbsent (removeAll m cid tl) t := by
  induction tl generalizing m with
  | nil => exact h
  | cons t0 rest ih =>
    rw [removeAll_cons]
    exact ih (keyAbsent_pruneAfterDelete h)

theorem keyAbsent_pruneAfterDelete_self {m : SubsMap} {t : JsNumber} {cid : Nat}
    (h : ∀ x ∈ msubs m t, x = cid) : keyAbsent (pruneAfterDelete m t cid) t := by
  cases hg : mapGet m t with
  | none =>
    have he : pruneAfterDelete m t cid = m := by simp [pruneAfterDelete, hg]
    rw [he]
    exact mapGet_eq_none_iff.mp hg
  | some s =>
    have hall : ∀ x ∈ s, x = cid := by
      intro x hx
      exact h x (by simp [msubs, hg]; exact hx)
    have he : pruneAfterDelete m t cid = mapDelete m t := by
      simp [pruneAfterDelete, hg, setDelete_eq_nil_of_all hall]
    rw [he]
    exact keyAbsent_mapDelete_self

theorem keyAbsent_removeAll_of_mem {cid : Nat} {tl : List JsNumber} {m : SubsMap}
    {t : JsNumber} (htl : t ∈ tl) (h : ∀ x ∈ msubs m t, x = cid) :
    keyAbsent (removeAll m cid tl) t := by
  induction tl generalizing m with
  | nil => exact absurd htl (List.not_mem_nil t)
  | cons t0 rest ih =>
    rw [removeAll_cons]
    rcases List.mem_cons.mp htl with rfl | hrest
    · exact keyAbsent_removeAll (keyAbsent_pruneAfterDelete_self h)
    · by_cases ht0 : t = t0
      · subst ht0
        exact keyAbsent_removeAll (keyAbsent_pruneAfterDelete_self h)
      · apply ih hrest
        rw [msubs_pruneAfterDelete_ne m cid ht0]
        exact h

/-! ## Connection lookup lemmas -/

theorem findConn_cons (c0 : Conn) (rest : List Conn) (cid : Nat) :
    findConn (c0 :: rest) cid = if c0.id = cid then some c0 else findConn rest cid := rfl

theorem findConn_mem {l : List Conn} {cid : Nat} {c : Conn}
    (h : findConn l cid = some c) : c ∈ l ∧ c.id = cid := by
  induction l with
  | nil => simp [findConn] at h
  | cons c0 rest ih =>
    rw [findConn_cons] at h
    by_cases h0 : c0.id = cid
    · rw [if_pos h0] at h
      injection h with h2
      subst h2
      exact ⟨List.mem_cons_self c0 rest, h0⟩
    · rw [if_neg h0] at h
      rcases ih h with ⟨hm, hid⟩
      exact ⟨List.mem_cons_of_mem c0 hm, hid⟩

theorem conn_eq_of_nodup_ids {l : List Conn} (hnd : (l.map (fun c => c.id)).Nodup)
    {c1 c2 : Conn} (h1 : c1 ∈ l) (h2 : c2 ∈ l) (he : c1.id = c2.id) : c1 = c2 :=
  List.inj_on_of_nodup_map hnd h1 h2 he

theorem findConn_of_mem {l : List Conn} (hnd : (l.map (fun c => c.id)).Nodup)
    {c : Conn} (hc : c ∈ l) : findConn l c.id = some c := by
  induction l with
  | nil => exact absurd hc (List.not_mem_nil c)
  | cons c0 rest ih =>
    rw [findConn_cons]
    rcases List.mem_cons.mp hc with rfl | hr
    · rw [if_pos rfl]
    · by_cases h0 : c0.id = c.id
      · have he : c0 = c :=
          conn_eq_of_nodup_ids hnd (List.mem_cons_self c0 rest)
            (List.mem_cons_of_mem c0 hr) h0
        rw [if_pos h0, he]
      · rw [if_neg h0]
        simp only [List.map_cons] at hnd
        exact ih hnd.of_cons hr

theorem findConn_map_preserveId {l : List Conn} {cid : Nat} (f : Conn → Conn)
    (hf : ∀ c, (f c).id = c.id) :
    findConn (l.map f) cid = (findConn l cid).map f := by
  induction l with
  | nil => rfl
  | cons c0 rest ih =>
    simp only [List.map_cons, findConn_cons, hf c0]
    by_cases h0 : c0.id = cid
    · simp [h0]
    · simp [h0, ih]

theorem ids_map_eq {l : List Conn} {f : Conn → Conn} (hf : ∀ c, (f c).id = c.id) :
    (l.map f).map (fun c => c.id) = l.map (fun c => c.id) := by
  rw [List.map_map]
  exact List.map_congr_left (fun c _ => hf c)

/-! ## Handler characterization lemmas -/

theorem handleMessage_subscribe (st : ServerState) (cid : Nat) (q : JsNumber) (ty : JVal)
    (hty : ty = JVal.jstr "subscribe") :
    handleMessage st cid { type := ty, tableId := JVal.jnum q } =
      (subscribeState st cid q,
       [(cid, OutMsg.subscribed q "Successfully subscribed to real-time updates")]) := by
  subst hty
  simp [handleMessage, asNum]

theorem handleMessage_unsubscribe (st : ServerState) (cid : Nat) (q : JsNumber) (ty : JVal)
    (hty : ty = JVal.jstr "unsubscribe") :
    handleMessage st cid { type := ty, tableId := JVal.jnum q } =
      (unsubscribeState st cid q, [(cid, OutMsg.unsubscribed q)]) := by
  subst hty
  simp [handleMessage, asNum]

theorem handleMessage_ignored {st : ServerState} {cid : Nat} {m : ClientMsg}
    (h : (m.type ≠ JVal.jstr "subscribe" ∧ m.type ≠ JVal.jstr "unsubscribe") ∨
         asNum m.tableId = none) :
    handleMessage st cid m = (st, []) := by
  cases hn : asNum m.tableId with
  | none => simp [handleMessage, hn]
  | some q =>
    rcases h with ⟨h1, h2⟩ | h3
    · simp [handleMessage, hn, h1, h2]
    · rw [hn] at h3
      exact absurd h3 (by simp)

theorem asNum_eq_some {v : JVal} {q : JsNumber} (h : asNum v = some q) :
    v = JVal.jnum q := by
  cases v with
  | jnum q2 =>
    simp [asNum] at h
    rw [h]
  | jstr s => simp [asNum] at h
  | jother => simp [asNum] at h

theorem handleMessage_state_cases (st : ServerState) (cid : Nat) (m : ClientMsg) :
    (handleMessage st cid m).1 = st ∨
    (∃ q, (handleMessage st cid m).1 = subscribeState st cid q) ∨
    (∃ q, (handleMessage st cid m).1 = unsubscribeState st cid q) := by
  cases hn : asNum m.tableId with
  | none =>
    left
    rw [handleMessage_ignored (Or.inr hn)]
  | some q =>
    by_cases h1 : m.type = JVal.jstr "subscribe"
    · right; left
      refine ⟨q, ?_⟩
      have he : m = { type := m.type, tableId := m.tableId } := rfl
      have hq : m.tableId = JVal.jnum q := asNum_eq_some hn
      rw [he, hq, handleMessage_subscribe st cid q m.type h1]
    · by_cases h2 : m.type = JVal.jstr "unsubscribe"
      · right; right
        refine ⟨q, ?_⟩
        have he : m = { type := m.type, tableId := m.tableId } := rfl
        have hq : m.tableId = JVal.jnum q := asNum_eq_some hn
        rw [he, hq, handleMessage_unsubscribe st cid q m.type h2]
      · left
        rw [handleMessage_ignored (Or.inl ⟨h1, h2⟩)]

/-! ## subsOf characterizations of the state transformers -/

theorem subsOf_subscribeState_self (st : ServerState) (cid : Nat) (q : JsNumber) :
    subsOf (subscribeState st cid q) q = setAdd cid (subsOf st q) :=
  msubs_addSub_self st.tableSubscriptions q cid

theorem subsOf_subscribeState_ne (st : ServerState) (cid : Nat) {q t : JsNumber}
    (h : t ≠ q) : subsOf (subscribeState st cid q) t = subsOf st t :=
  msubs_addSub_ne st.tableSubscriptions cid h

theorem subsOf_unsubscribeState_self (st : ServerState) (cid : Nat) (q : JsNumber) :
    subsOf (unsubscribeState st cid q) q = setDelete cid (subsOf st q) :=
  msubs_pruneAfterDelete_self st.tableSubscriptions q cid

theorem subsOf_unsubscribeState_ne (st : ServerState) (cid : Nat) {q t : JsNumber}
    (h : t ≠ q) : subsOf (unsubscribeState st cid q) t = subsOf st t :=
  msubs_pruneAfterDelete_ne st.tableSubscriptions cid h

/-! ## Fold cleanup lemmas for close and sweep -/

theorem mem_msubs_cleanFold {x : Nat} {dead : List Conn} {m : SubsMap} {t : JsNumber}
    (h : x ∈ msubs (dead.foldl (fun acc c => closeCleanup acc c) m) t) : x ∈ msubs m t := by
  induction dead generalizing m with
  | nil => exact h
  | cons d rest ih => exact mem_msubs_removeAll (ih h)

theorem mem_msubs_cleanFold_iff {x : Nat} {dead : List Conn} {m : SubsMap} {t : JsNumber}
    (hx : ∀ d ∈ dead, x ≠ d.id) :
    x ∈ msubs (dead.foldl (fun acc c => closeCleanup acc c) m) t ↔ x ∈ msubs m t := by
  induction dead generalizing m with
  | nil => exact Iff.rfl
  | cons d rest ih =>
    have h1 : x ≠ d.id := hx d (List.mem_cons_self d rest)
    have h2 : ∀ d2 ∈ rest, x ≠ d2.id := fun d2 hd2 => hx d2 (List.mem_cons_of_mem d hd2)
    exact (ih h2).trans (mem_msubs_removeAll_iff h1)

theorem not_mem_msubs_cleanFold {dead : List Conn} {m : SubsMap} {t : JsNumber} {d : Conn}
    (hd : d ∈ dead) (ht : t ∈ d.subscribedTables) :
    d.id ∉ msubs (dead.foldl (fun acc c => closeCleanup acc c) m) t := by
  induction dead generalizing m with
  | nil => exact absurd hd (List.not_mem_nil d)
  | cons d0 rest ih =>
    rcases List.mem_cons.mp hd with rfl | hr
    · intro hmem
      exact not_mem_msubs_removeAll_of_mem ht (mem_msubs_cleanFold hmem)
    · exact ih hr

theorem MPruned_cleanFold {dead : List Conn} {m : SubsMap}
    (h : MPruned m) : MPruned (dead.foldl (fun acc c => closeCleanup acc c) m) := by
  induction dead generalizing m with
  | nil => exact h
  | cons d rest ih => exact ih (MPruned_removeAll h)

/-! ## Invariant preservation by each operation -/

theorem subscribeConnUpd_id (cid : Nat) (q : JsNumber) (c : Conn) :
    ((fun c => if c.id = cid then
        { c with subscribedTables := setAdd q c.subscribedTables } else c) c).id = c.id := by
  by_cases h0 : c.id = cid <;> simp [h0]

theorem unsubscribeConnUpd_id (cid : Nat) (q : JsNumber) (c : Conn) :
    ((fun c => if c.id = cid then
        { c with subscribedTables := setDelete q c.subscribedTables } else c) c).id = c.id := by
  by_cases h0 : c.id = cid <;> simp [h0]

theorem symOK_subscribeState {st : ServerState} (h : SymOK st) {cid : Nat}
    (hcid : cid ∈ idsOf st) (q : JsNumber) : SymOK (subscribeState st cid q) := by
  obtain ⟨hCR, hRC, hN⟩ := h
  refine ⟨?_, ?_, ?_⟩
  · intro c hc t ht
    rcases List.mem_map.mp hc with ⟨c0, hc0, rfl⟩
    by_cases h0 : c0.id = cid
    · simp only [if_pos h0] at ht ⊢
      rcases mem_setAdd.mp ht with htq | ht0
      · rw [htq, subsOf_subscribeState_self, h0]
        exact self_mem_setAdd cid (subsOf st q)
      · by_cases htq : t = q
        · rw [htq, subsOf_subscribeState_self, h0]
          exact self_mem_setAdd cid (subsOf st q)
        · rw [subsOf_subscribeState_ne st cid htq]
          exact h0 ▸ hCR c0 hc0 t ht0
    · simp only [if_neg h0] at ht ⊢
      by_cases htq : t = q
      · rw [htq, subsOf_subscribeState_self]
        exact mem_setAdd.mpr (Or.inr (hCR c0 hc0 q (htq ▸ ht)))
      · rw [subsOf_subscribeState_ne st cid htq]
        exact hCR c0 hc0 t ht
  · intro t x hx
    by_cases htq : t = q
    · rw [htq, subsOf_subscribeState_self] at hx
      rcases mem_setAdd.mp hx with hxc | hx0
      · rcases List.mem_map.mp hcid with ⟨c0, hc0, hc0id⟩
        refine ⟨{ c0 with subscribedTables := setAdd q c0.subscribedTables },
          List.mem_map.mpr ⟨c0, hc0, by rw [if_pos hc0id]⟩, by rw [hc0id, hxc], ?_⟩
        rw [htq]
        exact self_mem_setAdd q c0.subscribedTables
      · rcases hRC q x hx0 with ⟨c1, hc1, hid, hq1⟩
        by_cases h1 : c1.id = cid
        · refine ⟨{ c1 with subscribedTables := setAdd q c1.subscribedTables },
            List.mem_map.mpr ⟨c1, hc1, by rw [if_pos h1]⟩, hid, ?_⟩
          rw [htq]
          exact mem_setAdd.mpr (Or.inr hq1)
        · exact ⟨c1, List.mem_map.mpr ⟨c1, hc1, by rw [if_neg h1]⟩, hid, htq ▸ hq1⟩
    · rw [subsOf_subscribeState_ne st cid htq] at hx
      rcases hRC t x hx with ⟨c1, hc1, hid, ht1⟩
      by_cases h1 : c1.id = cid
      · refine ⟨{ c1 with subscribedTables := setAdd q c1.subscribedTables },
          List.mem_map.mpr ⟨c1, hc1, by rw [if_pos h1]⟩, hid, ?_⟩
        exact mem_setAdd.mpr (Or.inr ht1)
      · exact ⟨c1, List.mem_map.mpr ⟨c1, hc1, by rw [if_neg h1]⟩, hid, ht1⟩
  · have hids := ids_map_eq (l := st.conns) (subscribeConnUpd_id cid q)
    simp only [NodupIds, idsOf, subscribeState]
    rw [hids]
    exact hN

theorem step_connect (st : ServerState) (cid : Nat) :
    step st (Op.connect cid) =
      if cid ∈ idsOf st then st
      else { st with conns := st.conns ++
        [{ id := cid, isAlive := true, readyState := wsOPEN, subscribedTables := [] }] } := rfl

theorem step_clientMsg (st : ServerState) (cid : Nat) (parsed : Option ClientMsg) :
    step st (Op.clientMsg cid parsed) =
      if cid ∈ idsOf st then (handleRawMessage st cid parsed).1 else st := rfl

theorem step_pong (st : ServerState) (cid : Nat) :
    step st (Op.pong cid) =
      { st with conns := st.conns.map (fun c => if c.id = cid then { c with isAlive := true } else c) } := rfl

theorem step_disconnect (st : ServerState) (cid : Nat) :
    step st (Op.disconnect cid) =
      (match getConn st cid with
       | none => st
       | some c => disconnectState st c) := rfl

theorem step_deleteTable (st : ServerState) (t : JsNumber) :
    step st (Op.deleteTable t) =
      { st with tableSubscriptions := mapDelete st.tableSubscriptions t } := rfl

theorem step_sweepTick (st : ServerState) : step st Op.sweepTick = sweep st := rfl


theorem symOK_unsubscribeState {st : ServerState} (h : SymOK st) (cid : Nat)
    (q : JsNumber) : SymOK (unsubscribeState st cid q) := by
  obtain ⟨hCR, hRC, hN⟩ := h
  refine ⟨?_, ?_, ?_⟩
  · intro c hc t ht
    rcases List.mem_map.mp hc with ⟨c0, hc0, rfl⟩
    by_cases h0 : c0.id = cid
    · simp only [if_pos h0] at ht ⊢
      rcases mem_setDelete.mp ht with ⟨ht0, htq⟩
      rw [subsOf_unsubscribeState_ne st cid htq]
      exact h0 ▸ hCR c0 hc0 t ht0
    · simp only [if_neg h0] at ht ⊢
      by_cases htq : t = q
      · rw [htq, subsOf_unsubscribeState_self]
        exact mem_setDelete.mpr ⟨hCR c0 hc0 q (htq ▸ ht), h0⟩
      · rw [subsOf_unsubscribeState_ne st cid htq]
        exact hCR c0 hc0 t ht
  · intro t x hx
    by_cases htq : t = q
    · rw [htq, subsOf_unsubscribeState_self] at hx
      rcases mem_setDelete.mp hx with ⟨hx0, hxc⟩
      rcases hRC q x hx0 with ⟨c1, hc1, hid, hq1⟩
      have h1 : c1.id ≠ cid := fun he => hxc (hid ▸ he)
      exact ⟨c1, List.mem_map.mpr ⟨c1, hc1, by rw [if_neg h1]⟩, hid, htq ▸ hq1⟩
    · rw [subsOf_unsubscribeState_ne st cid htq] at hx
      rcases hRC t x hx with ⟨c1, hc1, hid, ht1⟩
      by_cases h1 : c1.id = cid
      · refine ⟨{ c1 with subscribedTables := setDelete q c1.subscribedTables },
          List.mem_map.mpr ⟨c1, hc1, by rw [if_pos h1]⟩, hid, ?_⟩
        exact mem_setDelete.mpr ⟨ht1, htq⟩
      · exact ⟨c1, List.mem_map.mpr ⟨c1, hc1, by rw [if_neg h1]⟩, hid, ht1⟩
  · have hids := ids_map_eq (l := st.conns) (unsubscribeConnUpd_id cid q)
    simp only [NodupIds, idsOf, unsubscribeState]
    rw [hids]
    exact hN

theorem symOK_connect {st : ServerState} (h : SymOK st) (cid : Nat) :
    SymOK (step st (Op.connect cid)) := by
  obtain ⟨hCR, hRC, hN⟩ := h
  rw [step_connect]
  by_cases hin : cid ∈ idsOf st
  · rw [if_pos hin]
    exact ⟨hCR, hRC, hN⟩
  · rw [if_neg hin]
    refine ⟨?_, ?_, ?_⟩
    · intro c hc t ht
      rcases List.mem_append.mp hc with hm | hs
      · exact hCR c hm t ht
      · rw [List.mem_singleton.mp hs] at ht
        exact absurd ht (List.not_mem_nil t)
    · intro t x hx
      rcases hRC t x hx with ⟨c1, hc1, hid, ht1⟩
      exact ⟨c1, List.mem_append.mpr (Or.inl hc1), hid, ht1⟩
    · simp only [NodupIds, idsOf, List.map_append, List.map_cons, List.map_nil]
      rw [List.nodup_append]
      refine ⟨hN, List.nodup_singleton cid, ?_⟩
      intro a ha hax
      rw [List.mem_singleton.mp hax] at ha
      exact hin ha

theorem symOK_pong {st : ServerState} (h : SymOK st) (cid : Nat) :
    SymOK (step st (Op.pong cid)) := by
  obtain ⟨hCR, hRC, hN⟩ := h
  have hfid : ∀ c : Conn,
      ((fun c => if c.id = cid then { c with isAlive := true } else c) c).id = c.id := by
    intro c
    by_cases h0 : c.id = cid <;> simp [h0]
  have hfsub : ∀ c : Conn,
      ((fun c => if c.id = cid then { c with isAlive := true } else c) c).subscribedTables
        = c.subscribedTables := by
    intro c
    by_cases h0 : c.id = cid <;> simp [h0]
  refine ⟨?_, ?_, ?_⟩
  · intro c hc t ht
    rcases List.mem_map.mp hc with ⟨c0, hc0, rfl⟩
    rw [hfsub c0] at ht
    rw [hfid c0]
    exact hCR c0 hc0 t ht
  · intro t x hx
    rcases hRC t x hx with ⟨c1, hc1, hid, ht1⟩
    refine ⟨(fun c => if c.id = cid then { c with isAlive := true } else c) c1,
      List.mem_map.mpr ⟨c1, hc1, rfl⟩, ?_, ?_⟩
    · rw [hfid c1]
      exact hid
    · rw [hfsub c1]
      exact ht1
  · have hids := ids_map_eq (l := st.conns) hfid
    simp only [NodupIds, idsOf, step]
    rw [hids]
    exact hN

theorem symOK_disconnectState {st : ServerState} (h : SymOK st) {c0 : Conn}
    (hc0 : c0 ∈ st.conns) : SymOK (disconnectState st c0) := by
  obtain ⟨hCR, hRC, hN⟩ := h
  refine ⟨?_, ?_, ?_⟩
  · intro c hc t ht
    have hcm := List.mem_filter.mp hc
    have hne : c.id ≠ c0.id := by simpa using hcm.2
    have hold : c.id ∈ subsOf st t := hCR c hcm.1 t ht
    exact (mem_msubs_removeAll_iff hne).mpr hold
  · intro t x hx
    have hx2 : x ∈ msubs (removeAll st.tableSubscriptions c0.id c0.subscribedTables) t := hx
    have hx0 : x ∈ subsOf st t := mem_msubs_removeAll hx2
    rcases hRC t x hx0 with ⟨c1, hc1, hid, ht1⟩
    by_cases hxe : x = c0.id
    · have he : c1 = c0 := conn_eq_of_nodup_ids hN hc1 hc0 (hid.trans hxe)
      rw [he] at ht1
      have : c0.id ∉ msubs (removeAll st.tableSubscriptions c0.id c0.subscribedTables) t :=
        not_mem_msubs_removeAll_of_mem ht1
      exact absurd (hxe ▸ hx2) this
    · have hne : c1.id ≠ c0.id := fun he => hxe (hid ▸ he)
      refine ⟨c1, List.mem_filter.mpr ⟨hc1, by simpa using hne⟩, hid, ht1⟩
  · simp only [NodupIds, idsOf, disconnectState]
    exact hN.sublist ((List.filter_sublist st.conns).map (fun c => c.id))

theorem symOK_sweep {st : ServerState} (h : SymOK st) : SymOK (sweep st) := by
  obtain ⟨hCR, hRC, hN⟩ := h
  refine ⟨?_, ?_, ?_⟩
  · intro c hc t ht
    rcases List.mem_map.mp hc with ⟨c1, hc1f, rfl⟩
    have hc1m := List.mem_filter.mp hc1f
    have hc1a : c1.isAlive = true := by simpa using hc1m.2
    have ht1 : t ∈ c1.subscribedTables := ht
    have hold : c1.id ∈ subsOf st t := hCR c1 hc1m.1 t ht1
    have hne : ∀ d ∈ st.conns.filter (fun c => c.isAlive = false), c1.id ≠ d.id := by
      intro d hd he
      have hdm := List.mem_filter.mp hd
      have hda : d.isAlive = false := by simpa using hdm.2
      have hcd : c1 = d := conn_eq_of_nodup_ids hN hc1m.1 hdm.1 he
      rw [hcd, hda] at hc1a
      cases hc1a
    exact (mem_msubs_cleanFold_iff hne).mpr hold
  · intro t x hx
    have hx2 : x ∈ msubs ((st.conns.filter (fun c => c.isAlive = false)).foldl
        (fun acc c => closeCleanup acc c) st.tableSubscriptions) t := hx
    have hx0 : x ∈ subsOf st t := mem_msubs_cleanFold hx2
    rcases hRC t x hx0 with ⟨c1, hc1, hid, ht1⟩
    by_cases ha : c1.isAlive = true
    · exact ⟨{ c1 with isAlive := false },
        List.mem_map.mpr ⟨c1, List.mem_filter.mpr ⟨hc1, by simpa using ha⟩, rfl⟩, hid, ht1⟩
    · have ha2 : c1.isAlive = false := by
        cases hb : c1.isAlive
        · rfl
        · exact absurd hb ha
      have hdm : c1 ∈ st.conns.filter (fun c => c.isAlive = false) :=
        List.mem_filter.mpr ⟨hc1, by simpa using ha2⟩
      have hnot : c1.id ∉ msubs ((st.conns.filter (fun c => c.isAlive = false)).foldl
          (fun acc c => closeCleanup acc c) st.tableSubscriptions) t :=
        not_mem_msubs_cleanFold hdm ht1
      have hxc : c1.id ∈ msubs ((st.conns.filter (fun c => c.isAlive = false)).foldl
          (fun acc c => closeCleanup acc c) st.tableSubscriptions) t := by
        rw [hid]
        exact hx2
      exact absurd hxc hnot
  · simp only [NodupIds, idsOf, sweep]
    rw [ids_map_eq (l := st.conns.filter (fun c => c.isAlive))
      (f := fun c => { c with isAlive := false }) (fun c => rfl)]
    exact hN.sublist ((List.filter_sublist st.conns).map (fun c => c.id))

theorem symOK_step {st : ServerState} {op : Op} (h : SymOK st)
    (hop : isDeleteOp op = false) : SymOK (step st op) := by
  cases op with
  | connect cid => exact symOK_connect h cid
  | clientMsg cid parsed =>
    rw [step_clientMsg]
    by_cases hin : cid ∈ idsOf st
    · rw [if_pos hin]
      cases parsed with
      | none => exact h
      | some m =>
        rcases handleMessage_state_cases st cid m with he | ⟨q, he⟩ | ⟨q, he⟩
        · show SymOK (handleMessage st cid m).1
          rw [he]
          exact h
        · show SymOK (handleMessage st cid m).1
          rw [he]
          exact symOK_subscribeState h hin q
        · show SymOK (handleMessage st cid m).1
          rw [he]
          exact symOK_unsubscribeState h cid q
    · rw [if_neg hin]
      exact h
  | pong cid => exact symOK_pong h cid
  | disconnect cid =>
    cases hg : getConn st cid with
    | none =>
      simp only [step_disconnect, hg]
      exact h
    | some c =>
      simp only [step_disconnect, hg]
      exact symOK_disconnectState h (findConn_mem hg).1
  | deleteTable t => simp [isDeleteOp] at hop
  | sweepTick =>
    rw [step_sweepTick]
    exact symOK_sweep h

theorem symOK_initialState : SymOK initialState := by
  refine ⟨?_, ?_, ?_⟩
  · intro c hc
    exact absurd hc (List.not_mem_nil c)
  · intro t x hx
    simp [subsOf, msubs, mapGet, initialState] at hx
  · simp [NodupIds, idsOf, initialState]

theorem symOK_foldl {ops : List Op} {st : ServerState} (h : SymOK st)
    (hops : ∀ op ∈ ops, isDeleteOp op = false) : SymOK (ops.foldl step st) := by
  induction ops generalizing st with
  | nil => exact h
  | cons op rest ih =>
    exact ih (symOK_step h (hops op (List.mem_cons_self op rest)))
      (fun o ho => hops o (List.mem_cons_of_mem op ho))

theorem symOK_run {ops : List Op} (hops : ∀ op ∈ ops, isDeleteOp op = false) :
    SymOK (run ops) := symOK_foldl symOK_initialState hops

theorem subSymmetric_of_symOK {st : ServerState} (h : SymOK st) : SubSymmetric st := by
  obtain ⟨hCR, hRC, hN⟩ := h
  intro c hc t
  constructor
  · exact fun ht => hCR c hc t ht
  · intro hx
    rcases hRC t c.id hx with ⟨c1, hc1, hid, htm⟩
    have he : c1 = c := conn_eq_of_nodup_ids hN hc1 hc hid
    rw [he] at htm
    exact htm

/-! ## Further helper lemmas for the claim theorems -/

theorem mapGet_some_mem {m : SubsMap} {t : JsNumber} {s : List Nat}
    (h : mapGet m t = some s) : (t, s) ∈ m := by
  induction m with
  | nil => simp [mapGet] at h
  | cons p rest ih =>
    by_cases hp : p.1 = t
    · simp [mapGet, hp] at h
      exact List.mem_cons.mpr (Or.inl (by rw [← hp, ← h]))
    · simp [mapGet, hp] at h
      exact List.mem_cons_of_mem p (ih h)

theorem routerToConn_of_E {st : ServerState} (h : RouterToConnE st) : RouterToConn st := by
  intro t x hx
  cases hg : mapGet st.tableSubscriptions t with
  | none => simp [subsOf, msubs, hg] at hx
  | some s =>
    have hxs : x ∈ s := by
      rw [subsOf, msubs, hg] at hx
      exact hx
    exact h (t, s) (mapGet_some_mem hg) x hxs

theorem head?_some_mem {α : Type} {l : List α} {a : α} (h : l.head? = some a) : a ∈ l := by
  cases l with
  | nil => simp at h
  | cons b rest =>
    simp at h
    rw [← h]
    exact List.mem_cons_self b rest

theorem head?_prop {α : Type} {l : List α} {P : α → Prop} (h : ∀ x ∈ l, P x)
    {y : α} (hy : y ∈ l) : ∃ z, l.head? = some z ∧ P z := by
  cases l with
  | nil => exact absurd hy (List.not_mem_nil y)
  | cons a rest => exact ⟨a, rfl, h a (List.mem_cons_self a rest)⟩

theorem findConn_sweep {l : List Conn} {cid : Nat} {c : Conn}
    (hf : findConn l cid = some c) (ha : c.isAlive = true) :
    findConn ((l.filter (fun c2 => c2.isAlive)).map (fun c2 => { c2 with isAlive := false })) cid
      = some { c with isAlive := false } := by
  induction l with
  | nil => simp [findConn] at hf
  | cons c0 rest ih =>
    rw [findConn_cons] at hf
    by_cases h0 : c0.id = cid
    · rw [if_pos h0] at hf
      injection hf with h2
      subst h2
      rw [List.filter_cons_of_pos (by simpa using ha), List.map_cons, findConn_cons,
        if_pos (show ({ c0 with isAlive := false } : Conn).id = cid from h0)]
    · rw [if_neg h0] at hf
      by_cases ha0 : c0.isAlive = true
      · rw [List.filter_cons_of_pos (by simpa using ha0), List.map_cons, findConn_cons,
          if_neg (show ¬ (({ c0 with isAlive := false } : Conn).id = cid) from h0)]
        exact ih hf
      · rw [List.filter_cons_of_neg (by simpa using ha0)]
        exact ih hf

theorem mapSet_mapSet (m : SubsMap) (t : JsNumber) (v v2 : List Nat) :
    mapSet (mapSet m t v) t v2 = mapSet m t v2 := by
  unfold mapSet
  rw [List.map_map]
  apply List.map_congr_left
  intro p hp
  by_cases hpt : p.1 = t
  · simp [Function.comp, hpt]
  · simp [Function.comp, hpt]

theorem mapSet_of_keyAbsent {m : SubsMap} {t : JsNumber} (v : List Nat)
    (h : keyAbsent m t) : mapSet m t v = m := by
  unfold mapSet
  have hid : ∀ p ∈ m, (if p.1 = t then (t, v) else p) = p := fun p hp => if_neg (h p hp)
  rw [List.map_congr_left hid]
  exact List.map_id m

theorem addSub_idem (m : SubsMap) (t : JsNumber) (cid : Nat) :
    addSub (addSub m t cid) t cid = addSub m t cid := by
  cases hg : mapGet m t with
  | none =>
    have h1 : addSub m t cid = m ++ [(t, [cid])] := by simp [addSub, hg]
    have h2 : mapGet (m ++ [(t, [cid])]) t = some [cid] := by
      rw [mapGet_append_of_none hg]
      simp [mapGet]
    have h4 : setAdd cid [cid] = [cid] := by simp [setAdd]
    have h3 : addSub (m ++ [(t, [cid])]) t cid = mapSet (m ++ [(t, [cid])]) t [cid] := by
      simp [addSub, h2, h4]
    rw [h1, h3]
    unfold mapSet
    rw [List.map_append]
    have hml : m.map (fun p => if p.1 = t then (t, [cid]) else p) = m := by
      have hid : ∀ p ∈ m, (if p.1 = t then (t, [cid]) else p) = p := fun p hp =>
        if_neg (mapGet_eq_none_iff.mp hg p hp)
      rw [List.map_congr_left hid]
      exact List.map_id m
    rw [hml]
    simp
  | some s =>
    have h1 : addSub m t cid = mapSet m t (setAdd cid s) := by simp [addSub, hg]
    have h2 : mapGet (mapSet m t (setAdd cid s)) t = some (setAdd cid s) := mapGet_mapSet_self hg
    have h3 : addSub (mapSet m t (setAdd cid s)) t cid
        = mapSet (mapSet m t (setAdd cid s)) t (setAdd cid (setAdd cid s)) := by
      simp [addSub, h2]
    rw [h1, h3, setAdd_idem, mapSet_mapSet]

theorem subscribeState_idem (st : ServerState) (cid : Nat) (q : JsNumber) :
    subscribeState (subscribeState st cid q) cid q = subscribeState st cid q := by
  unfold subscribeState
  congr 1
  · rw [List.map_map]
    apply List.map_congr_left
    intro c hc
    by_cases h0 : c.id = cid
    · simp [Function.comp, h0, setAdd_idem]
    · simp [Function.comp, h0]
  · exact addSub_idem st.tableSubscriptions q cid

theorem subscribeConnUpd_readyState (cid : Nat) (q : JsNumber) (c : Conn) :
    ((fun c => if c.id = cid then
        { c with subscribedTables := setAdd q c.subscribedTables } else c) c).readyState
      = c.readyState := by
  by_cases h0 : c.id = cid <;> simp [h0]

theorem connOpen_conns_map (conns : List Conn) (m : SubsMap) (f : Conn → Conn) (x : Nat)
    (hid : ∀ c, (f c).id = c.id) (hrs : ∀ c, (f c).readyState = c.readyState) :
    connOpen { conns := conns.map f, tableSubscriptions := m } x
      = connOpen { conns := conns, tableSubscriptions := m } x := by
  show (match findConn (conns.map f) x with
        | some c => decide (c.readyState = wsOPEN)
        | none => false) =
       (match findConn conns x with
        | some c => decide (c.readyState = wsOPEN)
        | none => false)
  rw [findConn_map_preserveId f hid]
  cases hf : findConn conns x with
  | none => rfl
  | some c => simp [hrs c]

theorem broadcastTableUpdate_eq {st : ServerState} {T : JsNumber} {s : List Nat} (d : BData)
    (hg : mapGet st.tableSubscriptions T = some s) (hne : s ≠ []) :
    broadcastTableUpdate st T d =
      (s.filter (fun x => connOpen st x)).map (fun x => (x, OutMsg.update (wireOf T d))) := by
  simp [broadcastTableUpdate, hg, List.length_eq_zero, hne]

theorem broadcast_count_one {st : ServerState} {q : JsNumber} {cid : Nat} (d : BData)
    (hmem : cid ∈ subsOf st q) (hnd : (subsOf st q).Nodup) (hopen : connOpen st cid = true) :
    ((broadcastTableUpdate st q d).map Prod.fst).count cid = 1 := by
  cases hg : mapGet st.tableSubscriptions q with
  | none => simp [subsOf, msubs, hg] at hmem
  | some s =>
    have hse : subsOf st q = s := by simp [subsOf, msubs, hg]
    rw [hse] at hmem hnd
    have hne : s ≠ [] := by
      intro h0
      rw [h0] at hmem
      exact List.not_mem_nil cid hmem
    rw [broadcastTableUpdate_eq d hg hne, List.map_map]
    have hmm : (s.filter (fun x => connOpen st x)).map
        (Prod.fst ∘ fun x => (x, OutMsg.update (wireOf q d)))
          = s.filter (fun x => connOpen st x) := by
      have hpt : ∀ x ∈ s.filter (fun x => connOpen st x),
          (Prod.fst ∘ fun x => (x, OutMsg.update (wireOf q d))) x = id x := fun x _ => rfl
      rw [List.map_congr_left hpt]
      exact List.map_id _
    rw [hmm]
    exact List.count_eq_one_of_mem (List.Nodup.filter _ hnd)
      (List.mem_filter.mpr ⟨hmem, hopen⟩)

/-! ## Route and storage lemmas -/

theorem getUserTable_props {store : List TableRec} {id userId : Nat} {tbl : TableRec}
    (h : getUserTable store id userId = some tbl) :
    tbl ∈ store ∧ tbl.id = id ∧ tbl.userId = userId := by
  unfold getUserTable at h
  have hmem := head?_some_mem h
  have h1 := List.mem_filter.mp hmem
  have h2 : tbl.id = id ∧ tbl.userId = userId := by simpa using h1.2
  exact ⟨h1.1, h2.1, h2.2⟩

theorem updateTable_timestamp {store : List TableRec} {id userId : Nat} (now : Nat)
    {tbl : TableRec} (hget : getUserTable store id userId = some tbl) :
    ∃ ut, (updateTable store id now).2 = some ut ∧ ut.lastUpdatedAt = now ∧ ut.id = id := by
  rcases getUserTable_props hget with ⟨hmem, hid, _⟩
  have himg : ({ tbl with lastUpdatedAt := now } : TableRec)
      ∈ store.map (fun t => if t.id = id then { t with lastUpdatedAt := now } else t) :=
    List.mem_map.mpr ⟨tbl, hmem, by rw [if_pos hid]⟩
  have hmem2 : ({ tbl with lastUpdatedAt := now } : TableRec)
      ∈ (store.map (fun t => if t.id = id then { t with lastUpdatedAt := now } else t)).filter
          (fun t => decide (t.id = id)) :=
    List.mem_filter.mpr ⟨himg, by simp [hid]⟩
  have hall : ∀ x ∈ (store.map (fun t =>
      if t.id = id then { t with lastUpdatedAt := now } else t)).filter
        (fun t => decide (t.id = id)), x.lastUpdatedAt = now ∧ x.id = id := by
    intro x hx
    have hxf := List.mem_filter.mp hx
    have hxid : x.id = id := by simpa using hxf.2
    rcases List.mem_map.mp hxf.1 with ⟨y, hy, hyx⟩
    by_cases hyid : y.id = id
    · rw [if_pos hyid] at hyx
      refine ⟨?_, hxid⟩
      rw [← hyx]
    · rw [if_neg hyid] at hyx
      rw [← hyx] at hxid
      exact absurd hxid hyid
  rcases head?_prop hall hmem2 with ⟨ut, hh, hp⟩
  exact ⟨ut, hh, hp.1, hp.2⟩

theorem syncRouteHandler_eq {store : List TableRec} {tableId userId : Nat}
    (fetched : SheetData) (ccs : List CustomColumn) (now : Nat) {tbl : TableRec}
    (hget : getUserTable store tableId userId = some tbl) :
    syncRouteHandler store tableId userId fetched ccs now =
      ((updateTable store tableId now).1,
        some (JsNumber.int (Int.ofNat tableId),
          { message := some "Data synced", timestamp := some now, sheetData := some fetched,
            customColumns := some ccs, table := (updateTable store tableId now).2 })) := by
  simp [syncRouteHandler, hget]

theorem dataRouteHandler_eq {store : List TableRec} {tableId userId : Nat}
    (fetched : SheetData) (ccs : List CustomColumn) (now : Nat) {tbl : TableRec}
    (hget : getUserTable store tableId userId = some tbl) :
    dataRouteHandler store tableId userId fetched ccs now true =
      ((updateTable store tableId now).1,
        some (JsNumber.int (Int.ofNat tableId),
          { type := some "dataRefreshed", message := some "Data refreshed",
            sheetData := some fetched, customColumns := some ccs,
            table := (updateTable store tableId now).2 })) := by
  simp [dataRouteHandler, hget]

/-! ## Claim theorems -/

/-- Claim C1, amended: the subscription symmetry invariant holds at every
observable point after any sequence of connect, subscribe, unsubscribe,
malformed-message, pong, sweep and disconnect operations from the empty
state, as long as the sequence contains no table-deletion operation. The
original claim also allowed table deletions; the counterexample shows the
code then lets the two sides diverge, because the delete route clears the
router entry without touching any subscribedTables set. -/
theorem spec_c1_subscription_symmetry (ops : List Op)
    (hops : ∀ op ∈ ops, isDeleteOp op = false) :
    SubSymmetric (run ops) :=
  subSymmetric_of_symOK (symOK_run hops)

/-- Claim C1 witness: the amended theorem applied to a concrete operation
sequence with subscribes, an unsubscribe, a sweep and a disconnect. -/
theorem spec_c1_subscription_symmetry_witness :
    (∀ op ∈ c1GoodOps, isDeleteOp op = false) ∧ SubSymmetric (run c1GoodOps) :=
  ⟨by decide, spec_c1_subscription_symmetry c1GoodOps (by decide)⟩

/-- Claim C1 counterexample: connect client 0, subscribe it to table 1,
then run the table-deletion cleanup for table 1. The client still has
table 1 in its local subscribedTables set while the router set for table 1
is empty, so the stated invariant fails after this operation sequence. -/
theorem spec_c1_counterexample : ¬ SubSymmetric (run c1DeleteOps) := by
  intro h
  exact absurd
    ((h { id := 0, isAlive := true, readyState := 1, subscribedTables := [JsNumber.int 1] }
      (by decide) (JsNumber.int 1)).mp (by decide))
    (by decide)

/-- Claim C3, amended: every incoming client message whose type is not
subscribe or unsubscribe, or whose tableId field is not a number, or that
fails to parse, leaves the state (both the subscription sets and the
router map) unchanged and sends nothing; the handler is a total function,
so no exception escapes to close the connection. The original claim said
non-integer tableId values are also ignored, but the code only checks
typeof === number, so a number with a fractional part is processed
(see the counterexample). -/
theorem spec_c3_malformed_ignored (st : ServerState) (cid : Nat) (parsed : Option ClientMsg)
    (h : ∀ m, parsed = some m →
      (m.type ≠ JVal.jstr "subscribe" ∧ m.type ≠ JVal.jstr "unsubscribe") ∨
        asNum m.tableId = none) :
    handleRawMessage st cid parsed = (st, []) := by
  cases parsed with
  | none => rfl
  | some m => exact handleMessage_ignored (h m rfl)

/-- Claim C3 witness: a message of unknown type and a message whose
tableId is a string are both ignored on a concrete state. -/
theorem spec_c3_malformed_ignored_witness :
    handleRawMessage oneConnState 0
      (some { type := JVal.jstr "bogus", tableId := JVal.jnum (JsNumber.int 1) })
        = (oneConnState, []) ∧
    handleRawMessage oneConnState 0
      (some { type := JVal.jstr "subscribe", tableId := JVal.jstr "42" })
        = (oneConnState, []) := by
  constructor
  · exact spec_c3_malformed_ignored oneConnState 0 _ (by
      intro m hm
      injection hm with h2
      subst h2
      left
      exact ⟨by decide, by decide⟩)
  · exact spec_c3_malformed_ignored oneConnState 0 _ (by
      intro m hm
      injection hm with h2
      subst h2
      right
      rfl)

/-- Claim C3 counterexample: a subscribe message whose tableId is the
number 2.5 is a number but not an integer; the handler processes it (the
send list is nonempty and the state changes), instead of ignoring it as
the claim requires for every non-integer tableId. -/
theorem spec_c3_counterexample :
    (handleRawMessage oneConnState 0 (some fracSubscribeMsg)).2 ≠ [] ∧
    (handleRawMessage oneConnState 0 (some fracSubscribeMsg)).1 ≠ oneConnState := by
  exact ⟨by decide, by decide⟩

/-- Claim C8: a subscribe message with any numeric tableId always succeeds
with no table-existence check (the handler takes no table store at all and
never consults one), sends exactly one confirmation message of the shape
type subscribed, tableId, message, addressed to the requesting connection
alone, and records the subscription in the router map. -/
theorem spec_c8_subscribe_confirmation (st : ServerState) (cid : Nat) (q : JsNumber) :
    (handleMessage st cid { type := JVal.jstr "subscribe", tableId := JVal.jnum q }).2
      = [(cid, OutMsg.subscribed q "Successfully subscribed to real-time updates")] ∧
    cid ∈ subsOf
      (handleMessage st cid { type := JVal.jstr "subscribe", tableId := JVal.jnum q }).1 q := by
  rw [handleMessage_subscribe st cid q (JVal.jstr "subscribe") rfl]
  constructor
  · rfl
  · show cid ∈ subsOf (subscribeState st cid q) q
    rw [subsOf_subscribeState_self]
    exact self_mem_setAdd cid (subsOf st q)

/-- Claim C9: subscribing the same connection to the same table twice
yields exactly the same registry and router state as subscribing once
(both sides behave as sets), and a subsequent broadcast to that table
delivers the message to that connection exactly once. The hypotheses say
the connection is registered and open and the subscriber set, like every
JS Set, has no duplicates. -/
theorem spec_c9_subscribe_idempotent (st : ServerState) (cid : Nat) (q : JsNumber)
    (d : BData) (c : Conn) (hc : getConn st cid = some c) (hopen : c.readyState = wsOPEN)
    (hnd : (subsOf st q).Nodup) :
    (handleMessage (handleMessage st cid
        { type := JVal.jstr "subscribe", tableId := JVal.jnum q }).1 cid
        { type := JVal.jstr "subscribe", tableId := JVal.jnum q }).1
      = (handleMessage st cid { type := JVal.jstr "subscribe", tableId := JVal.jnum q }).1 ∧
    ((broadcastTableUpdate (handleMessage st cid
        { type := JVal.jstr "subscribe", tableId := JVal.jnum q }).1 q d).map
          Prod.fst).count cid = 1 := by
  have h1 := handleMessage_subscribe st cid q (JVal.jstr "subscribe") rfl
  constructor
  · rw [h1]
    show (handleMessage (subscribeState st cid q) cid
      { type := JVal.jstr "subscribe", tableId := JVal.jnum q }).1 = subscribeState st cid q
    rw [handleMessage_subscribe (subscribeState st cid q) cid q (JVal.jstr "subscribe") rfl]
    exact subscribeState_idem st cid q
  · rw [h1]
    show ((broadcastTableUpdate (subscribeState st cid q) q d).map Prod.fst).count cid = 1
    apply broadcast_count_one
    · rw [subsOf_subscribeState_self]
      exact self_mem_setAdd cid (subsOf st q)
    · rw [subsOf_subscribeState_self]
      exact nodup_setAdd hnd
    · have he : connOpen (subscribeState st cid q) cid
          = connOpen { conns := st.conns, tableSubscriptions := addSub st.tableSubscriptions q cid } cid :=
        connOpen_conns_map st.conns (addSub st.tableSubscriptions q cid) _ cid
          (subscribeConnUpd_id cid q) (subscribeConnUpd_readyState cid q)
      rw [he]
      show (match findConn st.conns cid with
            | some c => decide (c.readyState = wsOPEN)
            | none => false) = true
      rw [show findConn st.conns cid = some c from hc]
      simp [hopen]

/-- Claim C9 witness: the theorem applied to the one-client state with
table 3 and an empty broadcast payload. -/
theorem spec_c9_subscribe_idempotent_witness :
    (handleMessage (handleMessage oneConnState 0
        { type := JVal.jstr "subscribe", tableId := JVal.jnum (JsNumber.int 3) }).1 0
        { type := JVal.jstr "subscribe", tableId := JVal.jnum (JsNumber.int 3) }).1
      = (handleMessage oneConnState 0
          { type := JVal.jstr "subscribe", tableId := JVal.jnum (JsNumber.int 3) }).1 ∧
    ((broadcastTableUpdate (handleMessage oneConnState 0
        { type := JVal.jstr "subscribe", tableId := JVal.jnum (JsNumber.int 3) }).1
          (JsNumber.int 3) {}).map Prod.fst).count 0 = 1 :=
  spec_c9_subscribe_idempotent oneConnState 0 (JsNumber.int 3) {} conn0
    (by decide) (by decide) (by decide)

/-- Claim C4: with the subscriber set of table T consisting exactly of the
open connections A and B, and C not a subscriber of T, broadcasting to T
delivers one copy of the wire message to A and to B, delivers only to
members of the set (so never to C), and never sends to a subscriber whose
socket is not in the OPEN ready state; the broadcast itself is a pure
send-list computation that leaves the state, and hence every subscriber
set, untouched. -/
theorem spec_c4_fanout (st : ServerState) (T : JsNumber) (d : BData) (A B C : Nat)
    (hAmem : A ∈ subsOf st T) (hBmem : B ∈ subsOf st T)
    (honly : ∀ x ∈ subsOf st T, x = A ∨ x = B)
    (hAopen : connOpen st A = true) (hBopen : connOpen st B = true)
    (hC : C ∉ subsOf st T) :
    ((A, OutMsg.update (wireOf T d)) ∈ broadcastTableUpdate st T d) ∧
    ((B, OutMsg.update (wireOf T d)) ∈ broadcastTableUpdate st T d) ∧
    (∀ y ∈ broadcastTableUpdate st T d, y.1 = A ∨ y.1 = B) ∧
    (∀ y ∈ broadcastTableUpdate st T d, y.1 ≠ C) ∧
    (∀ x ∈ subsOf st T, connOpen st x = false →
      ∀ y ∈ broadcastTableUpdate st T d, y.1 ≠ x) := by
  cases hg : mapGet st.tableSubscriptions T with
  | none => simp [subsOf, msubs, hg] at hAmem
  | some s =>
    have hse : subsOf st T = s := by simp [subsOf, msubs, hg]
    rw [hse] at hAmem hBmem honly hC
    have hne : s ≠ [] := fun h0 => List.not_mem_nil A (h0 ▸ hAmem)
    have hb := broadcastTableUpdate_eq d hg hne
    rw [hb, hse]
    refine ⟨?_, ?_, ?_, ?_, ?_⟩
    · exact List.mem_map.mpr ⟨A, List.mem_filter.mpr ⟨hAmem, hAopen⟩, rfl⟩
    · exact List.mem_map.mpr ⟨B, List.mem_filter.mpr ⟨hBmem, hBopen⟩, rfl⟩
    · intro y hy
      rcases List.mem_map.mp hy with ⟨x, hxf, rfl⟩
      exact honly x (List.mem_filter.mp hxf).1
    · intro y hy
      rcases List.mem_map.mp hy with ⟨x, hxf, rfl⟩
      intro hxc
      exact hC (hxc ▸ (List.mem_filter.mp hxf).1)
    · intro x hxs hxdead y hy
      rcases List.mem_map.mp hy with ⟨x2, hx2f, rfl⟩
      intro he
      have hx2x : x2 = x := he
      have hx2open : connOpen st x2 = true := by
        simpa using (List.mem_filter.mp hx2f).2
      rw [hx2x, hxdead] at hx2open
      cases hx2open

/-- Claim C4 witness: on the fan-out fixture, broadcasting to table 7
reaches exactly clients 1 and 2 and not client 3. -/
theorem spec_c4_fanout_witness :
    ((1, OutMsg.update (wireOf (JsNumber.int 7) {})) ∈
        broadcastTableUpdate fanoutState (JsNumber.int 7) {}) ∧
    ((2, OutMsg.update (wireOf (JsNumber.int 7) {})) ∈
        broadcastTableUpdate fanoutState (JsNumber.int 7) {}) ∧
    (∀ y ∈ broadcastTableUpdate fanoutState (JsNumber.int 7) {}, y.1 = 1 ∨ y.1 = 2) ∧
    (∀ y ∈ broadcastTableUpdate fanoutState (JsNumber.int 7) {}, y.1 ≠ 3) ∧
    (∀ x ∈ subsOf fanoutState (JsNumber.int 7), connOpen fanoutState x = false →
      ∀ y ∈ broadcastTableUpdate fanoutState (JsNumber.int 7) {}, y.1 ≠ x) :=
  spec_c4_fanout fanoutState (JsNumber.int 7) {} 1 2 3
    (by decide) (by decide) (by decide) (by decide) (by decide) (by decide)

/-- Claim C5: when every subscriber handle of table t equals cid (cid is
the last subscriber, or the set was already empty), then after cid leaves
via an unsubscribe message, and likewise after the close handler of the
socket with handle cid runs while t is among its subscribed tables, the
router map has no entry for t at all: the key is removed, not left
pointing at an empty set. -/
theorem spec_c5_pruning (st : ServerState) (cid : Nat) (t : JsNumber) (c : Conn)
    (hlast : ∀ x ∈ subsOf st t, x = cid) :
    (∀ p ∈ ((handleMessage st cid
        { type := JVal.jstr "unsubscribe", tableId := JVal.jnum t }).1).tableSubscriptions,
      p.1 ≠ t) ∧
    (getConn st cid = some c → t ∈ c.subscribedTables →
      ∀ p ∈ (disconnectState st c).tableSubscriptions, p.1 ≠ t) := by
  constructor
  · rw [handleMessage_unsubscribe st cid t (JVal.jstr "unsubscribe") rfl]
    show ∀ p ∈ (unsubscribeState st cid t).tableSubscriptions, p.1 ≠ t
    exact keyAbsent_pruneAfterDelete_self hlast
  · intro hget ht
    have hcid : c.id = cid := (findConn_mem hget).2
    show ∀ p ∈ removeAll st.tableSubscriptions c.id c.subscribedTables, p.1 ≠ t
    apply keyAbsent_removeAll_of_mem ht
    rw [hcid]
    exact hlast

/-- Claim C5 witness: in lastSubState, client 1 is the sole subscriber of
table 7; after its unsubscribe message, and after its close cleanup, the
entry for table 7 is gone. -/
theorem spec_c5_pruning_witness :
    (∀ p ∈ ((handleMessage lastSubState 1
        { type := JVal.jstr "unsubscribe",
          tableId := JVal.jnum (JsNumber.int 7) }).1).tableSubscriptions,
      p.1 ≠ JsNumber.int 7) ∧
    (∀ p ∈ (disconnectState lastSubState lastSubConn).tableSubscriptions,
      p.1 ≠ JsNumber.int 7) := by
  have h := spec_c5_pruning lastSubState 1 (JsNumber.int 7) lastSubConn (by decide)
  exact ⟨h.1, h.2 (by decide) (by decide)⟩

/-- Claim C6: a registered connection that is still marked alive survives
one sweep pass with its isAlive flag cleared; a registered connection
whose isAlive flag is false is terminated by the sweep pass: its handle
leaves the client set and every subscriber set of the router map, and the
pruning invariant is preserved. The side conditions are the router-side
well-formedness facts that hold in every reachable state. -/
theorem spec_c6_liveness_sweep (st : ServerState) (cid : Nat) (c : Conn)
    (hget : getConn st cid = some c) :
    (c.isAlive = true → getConn (sweep st) cid = some { c with isAlive := false }) ∧
    (c.isAlive = false → RouterToConnE st → NodupIds st →
      cid ∉ idsOf (sweep st) ∧ (∀ t, cid ∉ subsOf (sweep st) t) ∧
      (Pruned st → Pruned (sweep st))) := by
  have hcm := findConn_mem hget
  constructor
  · intro ha
    show findConn ((st.conns.filter (fun c2 => c2.isAlive)).map
      (fun c2 => { c2 with isAlive := false })) cid = some { c with isAlive := false }
    exact findConn_sweep hget ha
  · intro ha hRCE hN
    have hRC := routerToConn_of_E hRCE
    have hdm : c ∈ st.conns.filter (fun c2 => c2.isAlive = false) :=
      List.mem_filter.mpr ⟨hcm.1, by simp [ha]⟩
    refine ⟨?_, ?_, ?_⟩
    · intro hx
      have hx2 : cid ∈ ((st.conns.filter (fun c2 => c2.isAlive)).map
          (fun c2 => { c2 with isAlive := false })).map (fun c2 => c2.id) := hx
      rw [ids_map_eq (l := st.conns.filter (fun c2 => c2.isAlive))
        (f := fun c2 => { c2 with isAlive := false }) (fun c2 => rfl)] at hx2
      rcases List.mem_map.mp hx2 with ⟨c2, hc2f, hc2id⟩
      have hc2m := List.mem_filter.mp hc2f
      have hc2a : c2.isAlive = true := by simpa using hc2m.2
      have he : c2 = c := conn_eq_of_nodup_ids hN hc2m.1 hcm.1 (by rw [hc2id, hcm.2])
      rw [he, ha] at hc2a
      cases hc2a
    · intro t
      by_cases ht : t ∈ c.subscribedTables
      · have hkill := not_mem_msubs_cleanFold (m := st.tableSubscriptions) hdm ht
        rw [← hcm.2]
        exact hkill
      · intro hmem
        have hmem2 : cid ∈ msubs ((st.conns.filter (fun c2 => c2.isAlive = false)).foldl
            (fun acc c2 => closeCleanup acc c2) st.tableSubscriptions) t := hmem
        have hold : cid ∈ subsOf st t := mem_msubs_cleanFold hmem2
        rcases hRC t cid hold with ⟨c1, hc1, hid, ht1⟩
        have he : c1 = c := conn_eq_of_nodup_ids hN hc1 hcm.1 (by rw [hid, hcm.2])
        rw [he] at ht1
        exact ht ht1
    · intro hP
      exact MPruned_cleanFold hP

/-- Claim C6 witness: in sweepState, client 1 missed its probe window and
the sweep removes it everywhere; client 2 answered and merely has its flag
cleared by the same theorem applied to it. -/
theorem spec_c6_liveness_sweep_witness :
    (1 ∉ idsOf (sweep sweepState) ∧ (∀ t, 1 ∉ subsOf (sweep sweepState) t) ∧
      (Pruned sweepState → Pruned (sweep sweepState))) ∧
    getConn (sweep sweepState) 2
      = some { id := 2, isAlive := false, readyState := 1,
               subscribedTables := [JsNumber.int 8] } :=
  ⟨(spec_c6_liveness_sweep sweepState 1 sweepDeadConn (by decide)).2
      (by decide) (by unfold RouterToConnE; decide) (by unfold NodupIds idsOf; decide),
   (spec_c6_liveness_sweep sweepState 2
      { id := 2, isAlive := true, readyState := 1, subscribedTables := [JsNumber.int 8] }
      (by decide)).1 (by decide)⟩

/-- Claim C2, amended: for an explicit data resync on an existing table,
after the timestamp is persisted, the refresh path of the data route
(refresh=true) broadcasts a payload whose mutation tag is dataRefreshed
and which carries the refreshed snapshot, the current custom columns and
the updated table record; the sync route broadcasts the same snapshot,
columns and updated record but passes no mutation tag at all, so its wire
message goes out under the plain tableUpdate envelope tag instead of
dataRefreshed. The original claim required the dataRefreshed tag on every
explicit resync, which the sync route violates (see the counterexample). -/
theorem spec_c2_resync_broadcast (store : List TableRec) (tableId userId : Nat)
    (fetched : SheetData) (ccs : List CustomColumn) (now : Nat) (tbl : TableRec)
    (hget : getUserTable store tableId userId = some tbl) :
    (∃ ut, (updateTable store tableId now).2 = some ut ∧ ut.lastUpdatedAt = now ∧
      (dataRouteHandler store tableId userId fetched ccs now true).2
        = some (JsNumber.int (Int.ofNat tableId),
            { type := some "dataRefreshed", message := some "Data refreshed",
              sheetData := some fetched, customColumns := some ccs, table := some ut }) ∧
      (syncRouteHandler store tableId userId fetched ccs now).2
        = some (JsNumber.int (Int.ofNat tableId),
            { message := some "Data synced", timestamp := some now,
              sheetData := some fetched, customColumns := some ccs, table := some ut })) ∧
    (∀ p, (syncRouteHandler store tableId userId fetched ccs now).2 = some p →
      (wireOf p.1 p.2).type = "tableUpdate") := by
  rcases updateTable_timestamp now hget with ⟨ut, hut, hlast, hid⟩
  constructor
  · refine ⟨ut, hut, hlast, ?_, ?_⟩
    · rw [dataRouteHandler_eq fetched ccs now hget]
      simp [hut]
    · rw [syncRouteHandler_eq fetched ccs now hget]
      simp [hut]
  · intro p hp
    rw [syncRouteHandler_eq fetched ccs now hget] at hp
    have hp2 : some (JsNumber.int (Int.ofNat tableId),
        ({ message := some "Data synced", timestamp := some now, sheetData := some fetched,
           customColumns := some ccs, table := (updateTable store tableId now).2 } : BData))
        = some p := hp
    injection hp2 with h2
    rw [← h2]
    rfl

/-- Claim C2 witness: the amended theorem applied to the one-table store. -/
theorem spec_c2_resync_broadcast_witness :
    (∃ ut, (updateTable oneTableStore 1 5).2 = some ut ∧ ut.lastUpdatedAt = 5 ∧
      (dataRouteHandler oneTableStore 1 1 smallSheet [] 5 true).2
        = some (JsNumber.int (Int.ofNat 1),
            { type := some "dataRefreshed", message := some "Data refreshed",
              sheetData := some smallSheet, customColumns := some [], table := some ut }) ∧
      (syncRouteHandler oneTableStore 1 1 smallSheet [] 5).2
        = some (JsNumber.int (Int.ofNat 1),
            { message := some "Data synced", timestamp := some 5,
              sheetData := some smallSheet, customColumns := some [], table := some ut })) ∧
    (∀ p, (syncRouteHandler oneTableStore 1 1 smallSheet [] 5).2 = some p →
      (wireOf p.1 p.2).type = "tableUpdate") :=
  spec_c2_resync_broadcast oneTableStore 1 1 smallSheet [] 5
    { id := 1, userId := 1, name := "t", googleSheetUrl := "u", lastUpdatedAt := 0 }
    (by decide)

/-- Claim C2 counterexample: the sync route is an explicit data resync on
an existing table, yet the wire message it broadcasts resolves to the
plain tableUpdate tag, not dataRefreshed, because the payload carries no
type field. -/
theorem spec_c2_counterexample :
    ((syncRouteHandler oneTableStore 1 1 smallSheet [] 5).2.map
        (fun p => (wireOf p.1 p.2).type)) = some "tableUpdate" ∧
    ((syncRouteHandler oneTableStore 1 1 smallSheet [] 5).2.map
        (fun p => (wireOf p.1 p.2).type)) ≠ some "dataRefreshed" := by
  exact ⟨by decide, by decide⟩

/-- Claim C7: fetchGoogleSheetData is a total function of its inputs, so
no exception escapes to a caller, and on every failure path it returns the
documented in-band snapshot: the generic error snapshot for a url with no
sheet id match, for a missing API key and for any other thrown error, and
the specific not-found and access-denied snapshots for 404 and 403; every
result is a headers and rows record by the return type. -/
theorem spec_c7_fetch_error_in_band (sheetUrl apiKey : String) (api : SheetsApiResult) :
    (hasSheetIdMatch sheetUrl = false →
      fetchGoogleSheetData sheetUrl apiKey api = genericFetchError) ∧
    (apiKey = "" → fetchGoogleSheetData sheetUrl apiKey api = genericFetchError) ∧
    (hasSheetIdMatch sheetUrl = true → apiKey ≠ "" →
      fetchGoogleSheetData sheetUrl apiKey SheetsApiResult.http404 = notFoundSnapshot ∧
      fetchGoogleSheetData sheetUrl apiKey SheetsApiResult.http403 = accessDeniedSnapshot ∧
      fetchGoogleSheetData sheetUrl apiKey SheetsApiResult.otherError = genericFetchError) := by
  refine ⟨?_, ?_, ?_⟩
  · intro h
    simp [fetchGoogleSheetData, h]
  · intro h
    by_cases hm : hasSheetIdMatch sheetUrl = false
    · simp [fetchGoogleSheetData, hm]
    · simp [fetchGoogleSheetData, hm, h]
  · intro hm hk
    have hm2 : ¬ (hasSheetIdMatch sheetUrl = false) := by
      rw [hm]
      simp
    refine ⟨?_, ?_, ?_⟩ <;> simp [fetchGoogleSheetData, hm2, hk]

/-- Claim C7 witness: the theorem applied to a url with no 25 character
sheet id run, to an empty API key, and to each API failure on a valid
url. -/
theorem spec_c7_fetch_error_in_band_witness :
    fetchGoogleSheetData "nope" "key" (SheetsApiResult.ok [[some "h"]]) = genericFetchError ∧
    fetchGoogleSheetData validSheetUrl "" (SheetsApiResult.ok []) = genericFetchError ∧
    fetchGoogleSheetData validSheetUrl "key" SheetsApiResult.http404 = notFoundSnapshot ∧
    fetchGoogleSheetData validSheetUrl "key" SheetsApiResult.http403 = accessDeniedSnapshot ∧
    fetchGoogleSheetData validSheetUrl "key" SheetsApiResult.otherError = genericFetchError := by
  refine ⟨?_, ?_, ?_, ?_, ?_⟩
  · exact (spec_c7_fetch_error_in_band "nope" "key" (SheetsApiResult.ok [[some "h"]])).1
      (by decide)
  · exact (spec_c7_fetch_error_in_band validSheetUrl "" (SheetsApiResult.ok [])).2.1 rfl
  · exact ((spec_c7_fetch_error_in_band validSheetUrl "key"
      SheetsApiResult.http404).2.2 (by decide) (by decide)).1
  · exact ((spec_c7_fetch_error_in_band validSheetUrl "key"
      SheetsApiResult.http403).2.2 (by decide) (by decide)).2.1
  · exact ((spec_c7_fetch_error_in_band validSheetUrl "key"
      SheetsApiResult.otherError).2.2 (by decide) (by decide)).2.2

theorem filter_map_length_eq {α : Type} (f : α → α) (p : α → Bool) (l : List α)
    (h : ∀ x, p (f x) = p x) : ((l.map f).filter p).length = (l.filter p).length := by
  induction l with
  | nil => rfl
  | cons a rest ih =>
    simp only [List.map_cons]
    by_cases hp : p a = true
    · rw [List.filter_cons_of_pos (by rw [h a]; exact hp), List.filter_cons_of_pos hp]
      simp [ih]
    · rw [List.filter_cons_of_neg (by rw [h a]; simpa using hp),
        List.filter_cons_of_neg (by simpa using hp)]
      exact ih

/-- Claim C10: saveColumnValue preserves the at-most-one-record-per-cell
invariant; when a record for the (columnId, rowIndex) pair already exists,
it patches that record in place by its id (the store keeps its length and
the returned record keeps the existing id), otherwise it appends exactly
one fresh record; in both cases the returned record carries the new
value. -/
theorem spec_c10_column_value_upsert (store : List ColumnValue) (icv : InsertColumnValue)
    (freshId now : Nat) (h : AtMostOnePerCell store) :
    AtMostOnePerCell (saveColumnValue store icv freshId now).1 ∧
    (saveColumnValue store icv freshId now).2.value = icv.value ∧
    (∀ existing, getColumnValue store icv.columnId icv.rowIndex = some existing →
      (saveColumnValue store icv freshId now).2.id = existing.id ∧
      (saveColumnValue store icv freshId now).1.length = store.length) ∧
    (getColumnValue store icv.columnId icv.rowIndex = none →
      (saveColumnValue store icv freshId now).1
        = store ++ [(saveColumnValue store icv freshId now).2] ∧
      (saveColumnValue store icv freshId now).2.id = freshId) := by
  cases hg : getColumnValue store icv.columnId icv.rowIndex with
  | some existing =>
    have hs : saveColumnValue store icv freshId now
        = (store.map (fun r => if r.id = existing.id
            then { r with value := icv.value, updatedAt := now } else r),
           { existing with value := icv.value, updatedAt := now }) := by
      simp [saveColumnValue, hg]
    rw [hs]
    refine ⟨?_, rfl, ?_, ?_⟩
    · intro c r
      have hpt : ∀ x : ColumnValue,
          ((fun v => decide (v.columnId = c) && decide (v.rowIndex = r))
            ((fun r2 => if r2.id = existing.id
              then { r2 with value := icv.value, updatedAt := now } else r2) x))
          = ((fun v => decide (v.columnId = c) && decide (v.rowIndex = r)) x) := by
        intro x
        by_cases hx : x.id = existing.id <;> simp [hx]
      have hlen := filter_map_length_eq
        (fun r2 => if r2.id = existing.id
          then { r2 with value := icv.value, updatedAt := now } else r2)
        (fun v => decide (v.columnId = c) && decide (v.rowIndex = r)) store hpt
      show ((store.map _).filter _).length ≤ 1
      rw [hlen]
      exact h c r
    · intro existing2 hex
      injection hex with h2
      subst h2
      exact ⟨rfl, by simp⟩
    · intro h0
      exact absurd h0 (by simp)
  | none =>
    have hs1 : (saveColumnValue store icv freshId now).1
        = store ++ [{ id := freshId, columnId := icv.columnId, rowIndex := icv.rowIndex, value := icv.value, createdAt := now, updatedAt := now }] := by
      simp [saveColumnValue, hg]
    have hs2 : (saveColumnValue store icv freshId now).2
        = { id := freshId, columnId := icv.columnId, rowIndex := icv.rowIndex, value := icv.value, createdAt := now, updatedAt := now } := by
      simp [saveColumnValue, hg]
    have hflt : store.filter (fun v => decide (v.columnId = icv.columnId)
        && decide (v.rowIndex = icv.rowIndex)) = [] := by
      unfold getColumnValue at hg
      exact List.head?_eq_none_iff.mp hg
    refine ⟨?_, by rw [hs2], ?_, ?_⟩
    · intro c r
      rw [hs1, List.filter_append]
      by_cases hc : c = icv.columnId ∧ r = icv.rowIndex
      · obtain ⟨rfl, rfl⟩ := hc
        rw [hflt, List.nil_append]
        exact le_trans (List.length_filter_le _ _) (by simp)
      · have hnew : ((fun v => decide (v.columnId = c) && decide (v.rowIndex = r))
            ({ id := freshId, columnId := icv.columnId, rowIndex := icv.rowIndex, value := icv.value, createdAt := now, updatedAt := now } : ColumnValue)) = false := by
          by_cases h1 : icv.columnId = c
          · by_cases h2 : icv.rowIndex = r
            · exact absurd ⟨h1.symm, h2.symm⟩ hc
            · simp [h2]
          · simp [h1]
        have hone : List.filter (fun v => decide (v.columnId = c) && decide (v.rowIndex = r))
            [({ id := freshId, columnId := icv.columnId, rowIndex := icv.rowIndex, value := icv.value, createdAt := now, updatedAt := now } : ColumnValue)] = [] := by
          rw [List.filter_cons_of_neg (by simp [hnew])]
          rfl
        rw [hone, List.append_nil]
        exact h c r
    · intro existing hex
      exact absurd hex (by simp)
    · intro h0
      constructor
      · rw [hs1, hs2]
      · rw [hs2]

/-- Claim C10 witness: saving a value for an occupied cell updates the
stored record in place, keeping id 10, and returns the new value. -/
theorem spec_c10_column_value_upsert_witness :
    AtMostOnePerCell (saveColumnValue oneValueStore
      { columnId := 7, rowIndex := 3, value := "done" } 99 5).1 ∧
    (saveColumnValue oneValueStore
      { columnId := 7, rowIndex := 3, value := "done" } 99 5).2.value = "done" ∧
    (saveColumnValue oneValueStore
      { columnId := 7, rowIndex := 3, value := "done" } 99 5).2.id = 10 ∧
    (saveColumnValue oneValueStore
      { columnId := 7, rowIndex := 3, value := "done" } 99 5).1.length = 1 := by
  have hfix : AtMostOnePerCell oneValueStore := by
    intro c r
    exact le_trans (List.length_filter_le _ _) (by simp [oneValueStore])
  have h := spec_c10_column_value_upsert oneValueStore
    { columnId := 7, rowIndex := 3, value := "done" } 99 5 hfix
  have h3 := h.2.2.1
    { id := 10, columnId := 7, rowIndex := 3, value := "old", createdAt := 0, updatedAt := 0 }
    (by decide)
  exact ⟨h.1, h.2.1, h3.1, h3.2⟩
